import Mathlib

/-!
# Token authentication core of the chat backend

A shallow embedding of `api/services/jwt_auth.go` (the service
`JWTAuthService`) and `api/controllers/jwt_token.go` (the controller
`JwtAuthController`), together with the parts of the Go standard library and of
`github.com/golang-jwt/jwt/v4` those two files call: `strings`, `unicode/utf8`,
`encoding/base64`, `encoding/json`, `strconv`, `time`, `crypto/hmac` and
`crypto/sha256`.

Conventions of the embedding:

* a Go `string` is a `List Char`, the sequence of its code points (the text is
  taken to be valid UTF-8); `[]byte(s)` is `utf8Encode s`;
* a Go `int64` is an `Int`, with `wrapInt64` written out where the source
  multiplies, and where package `time` adds its offset to a value read from a
  token;
* `time.Now()` is an explicit argument, one per call the source makes, an
  instant counted in nanoseconds from the Unix epoch;
* a result `(string, error)` is a pair, the error an `Option`; a result
  `(pointer, error)`, of which the source returns exactly one, is an `Except`;
* an `error` value of a library is known by its message;
* the collaborators a handler reaches through the `gin.Context` and its
  injected services are arguments of the handler; calls of the logger are left
  out.

The definitions come first, the library from the bottom up, then the service
and the controller; the facts about them follow.
-/

namespace LetsChat

/-- A Go string: the list of its code points. -/
abbrev GoString := List Char

/-! ## Package `strings` and `unicode` -/

/-- Model of `unicode.IsSpace`: the Latin-1 spaces and the code points with the
Unicode White_Space property. -/
def isSpace (c : Char) : Bool :=
  let n := c.toNat
  n = 0x09 || n = 0x0A || n = 0x0B || n = 0x0C || n = 0x0D || n = 0x20 ||
  n = 0x85 || n = 0xA0 || n = 0x1680 || (0x2000 ≤ n && n ≤ 0x200A) ||
  n = 0x2028 || n = 0x2029 || n = 0x202F || n = 0x205F || n = 0x3000

/-- Model of `strings.HasPrefix`. -/
def HasPrefix : GoString → GoString → Bool
  | _, [] => true
  | [], _ :: _ => false
  | c :: s, d :: p => c == d && HasPrefix s p

/-- Model of `strings.Index`: the position of the first occurrence of `sep` in
`s`; `none` stands for Go's `-1`. -/
def Index : GoString → GoString → Option Nat
  | [], sep => if sep.isEmpty then some 0 else none
  | c :: s, sep =>
    if HasPrefix (c :: s) sep then some 0
    else (Index s sep).map (· + 1)

/-- Model of `strings.Contains`: `Index(s, substr) >= 0`. -/
def Contains (s substr : GoString) : Bool := (Index s substr).isSome

/-- Number of non-overlapping occurrences of a non-empty `sep` in `s`, scanning
from the left; `fuel` bounds the number of occurrences looked for. -/
def countFrom (sep : GoString) : Nat → GoString → Nat
  | 0, _ => 0
  | fuel + 1, s =>
    match Index s sep with
    | none => 0
    | some i => countFrom sep fuel (s.drop (i + sep.length)) + 1

/-- Model of `strings.Count`: for an empty `sep` the number of code points plus
one, otherwise the number of non-overlapping occurrences. -/
def Count (s sep : GoString) : Nat :=
  if sep.isEmpty then s.length + 1 else countFrom sep (s.length + 1) s

/-- The loop of `strings.Replace`: `n` replacements still to make in `s`, the
part of the string not yet copied; `first` is the source's test `i == 0`. -/
def replaceLoop (old new : GoString) : Nat → Bool → GoString → GoString
  | 0, _, s => s
  | n + 1, first, s =>
    let j : Nat :=
      if old.isEmpty then (if first then 0 else min 1 s.length)
      else (Index s old).getD s.length
    s.take j ++ new ++ replaceLoop old new n false (s.drop (j + old.length))

/-- Model of `strings.Replace(s, old, new, n)`: the first `n` non-overlapping
occurrences of `old` replaced by `new` (all of them when `n < 0`). -/
def Replace (s old new : GoString) (n : Int) : GoString :=
  if old = new ∨ n = 0 then s
  else
    let m := Count s old
    if m = 0 then s
    else
      let k : Nat := if n < 0 ∨ (m : Int) < n then m else n.toNat
      replaceLoop old new k true s

/-- Model of `strings.TrimSpace`: leading and trailing white space removed. -/
def TrimSpace (s : GoString) : GoString :=
  ((s.dropWhile isSpace).reverse.dropWhile isSpace).reverse

/-! ## Bytes and UTF-8 (`[]byte(s)`, `unicode/utf8`) -/

/-- A byte. -/
abbrev Byte := Fin 256

/-- The byte with value `n % 256`. -/
def byte (n : Nat) : Byte := ⟨n % 256, Nat.mod_lt _ (by decide)⟩

/-- UTF-8 encoding of one code point (`utf8.AppendRune`). -/
def utf8EncodeChar (c : Char) : List Byte :=
  let n := c.toNat
  if n < 0x80 then [byte n]
  else if n < 0x800 then [byte (0xC0 + n / 64), byte (0x80 + n % 64)]
  else if n < 0x10000 then
    [byte (0xE0 + n / 4096), byte (0x80 + n / 64 % 64), byte (0x80 + n % 64)]
  else
    [byte (0xF0 + n / 262144), byte (0x80 + n / 4096 % 64), byte (0x80 + n / 64 % 64),
     byte (0x80 + n % 64)]

/-- The bytes of a string, `[]byte(s)`. -/
def utf8Encode (s : GoString) : List Byte := s.flatMap utf8EncodeChar

/-! ## SHA-2 (`crypto/sha256`, `crypto/sha512`) -/

/-- The parameters that tell the SHA-2 functions apart (FIPS 180-4). -/
structure Sha2 where
  /-- Word size in bits. -/
  w : Nat
  /-- Round constants. -/
  k : List Nat
  /-- Initial hash value. -/
  iv : List Nat
  /-- Rotation amounts of the two big sigmas. -/
  bigSigma0 : Nat × Nat × Nat
  bigSigma1 : Nat × Nat × Nat
  /-- Rotation, rotation and shift amounts of the two small sigmas. -/
  smallSigma0 : Nat × Nat × Nat
  smallSigma1 : Nat × Nat × Nat
  /-- Number of bytes of the digest. -/
  size : Nat

namespace Sha2

/-- Block size in bytes (`BlockSize`). -/
def blockSize (p : Sha2) : Nat := 16 * (p.w / 8)

/-- Rotation to the right within a word. -/
def rotr (p : Sha2) (x n : Nat) : Nat := ((x >>> n) ||| (x <<< (p.w - n))) % 2 ^ p.w

/-- A big sigma function: three rotations combined. -/
def bigSigma (p : Sha2) (r : Nat × Nat × Nat) (x : Nat) : Nat :=
  p.rotr x r.1 ^^^ p.rotr x r.2.1 ^^^ p.rotr x r.2.2

/-- A small sigma function: two rotations and a shift combined. -/
def smallSigma (p : Sha2) (r : Nat × Nat × Nat) (x : Nat) : Nat :=
  p.rotr x r.1 ^^^ p.rotr x r.2.1 ^^^ (x >>> r.2.2)

/-- Big-endian bytes of a number, `len` of them. -/
def beBytes : Nat → Nat → List Byte
  | 0, _ => []
  | len + 1, x => byte (x >>> (8 * len)) :: beBytes len x

/-- Big-endian value of a list of bytes. -/
def beValue (bs : List Byte) : Nat := bs.foldl (fun acc b => acc * 256 + b.val) 0

/-- The message followed by the bit `1`, zeros and its length in bits, a whole
number of blocks. -/
def pad (p : Sha2) (msg : List Byte) : List Byte :=
  let lenField := p.w / 4
  let used := (msg.length + 1 + lenField) % p.blockSize
  let zeros := if used = 0 then 0 else p.blockSize - used
  msg ++ byte 0x80 :: List.replicate zeros (byte 0) ++ beBytes lenField (8 * msg.length)

/-- Cut a list into pieces of `n` elements; `fuel` bounds the number of pieces. -/
def chunks {α : Type} (n : Nat) : Nat → List α → List (List α)
  | 0, _ => []
  | fuel + 1, xs => if xs.isEmpty then [] else xs.take n :: chunks n fuel (xs.drop n)

/-- The message schedule, latest word first: `ws` holds `W[t-1], W[t-2], ...`. -/
def schedule (p : Sha2) : Nat → List Nat → List Nat
  | 0, ws => ws
  | n + 1, ws =>
    let x := (p.smallSigma p.smallSigma1 (ws.getD 1 0) + ws.getD 6 0 +
      p.smallSigma p.smallSigma0 (ws.getD 14 0) + ws.getD 15 0) % 2 ^ p.w
    schedule p n (x :: ws)

/-- One round of the compression function on the working variables `a..h`. -/
def round (p : Sha2) (v : List Nat) (kw : Nat × Nat) : List Nat :=
  let a := v.getD 0 0; let b := v.getD 1 0; let c := v.getD 2 0; let d := v.getD 3 0
  let e := v.getD 4 0; let f := v.getD 5 0; let g := v.getD 6 0; let h := v.getD 7 0
  let ch := (e &&& f) ^^^ ((2 ^ p.w - 1 - e) &&& g)
  let maj := (a &&& b) ^^^ (a &&& c) ^^^ (b &&& c)
  let t1 := h + p.bigSigma p.bigSigma1 e + ch + kw.1 + kw.2
  let t2 := p.bigSigma p.bigSigma0 a + maj
  [(t1 + t2) % 2 ^ p.w, a, b, c, (d + t1) % 2 ^ p.w, e, f, g]

/-- The compression function: the hash value after one more block. -/
def compress (p : Sha2) (st : List Nat) (block : List Byte) : List Nat :=
  let w16 := (chunks (p.w / 8) 16 block).map beValue
  let ws := (schedule p (p.k.length - 16) w16.reverse).reverse
  let v := (p.k.zip ws).foldl (round p) st
  (st.zip v).map (fun x => (x.1 + x.2) % 2 ^ p.w)

/-- The digest of a message (`Sum`). -/
def sum (p : Sha2) (msg : List Byte) : List Byte :=
  let padded := p.pad msg
  let st := (chunks p.blockSize padded.length padded).foldl (compress p) p.iv
  ((List.range 8).flatMap (fun i => beBytes (p.w / 8) (st.getD i 0))).take p.size

end Sha2

/-- The function SHA-256. -/
def sha256 : Sha2 where
  w := 32
  k := [
   0x428a2f98, 0x71374491, 0xb5c0fbcf, 0xe9b5dba5, 0x3956c25b, 0x59f111f1, 0x923f82a4, 0xab1c5ed5,
   0xd807aa98, 0x12835b01, 0x243185be, 0x550c7dc3, 0x72be5d74, 0x80deb1fe, 0x9bdc06a7, 0xc19bf174,
   0xe49b69c1, 0xefbe4786, 0x0fc19dc6, 0x240ca1cc, 0x2de92c6f, 0x4a7484aa, 0x5cb0a9dc, 0x76f988da,
   0x983e5152, 0xa831c66d, 0xb00327c8, 0xbf597fc7, 0xc6e00bf3, 0xd5a79147, 0x06ca6351, 0x14292967,
   0x27b70a85, 0x2e1b2138, 0x4d2c6dfc, 0x53380d13, 0x650a7354, 0x766a0abb, 0x81c2c92e, 0x92722c85,
   0xa2bfe8a1, 0xa81a664b, 0xc24b8b70, 0xc76c51a3, 0xd192e819, 0xd6990624, 0xf40e3585, 0x106aa070,
   0x19a4c116, 0x1e376c08, 0x2748774c, 0x34b0bcb5, 0x391c0cb3, 0x4ed8aa4a, 0x5b9cca4f, 0x682e6ff3,
   0x748f82ee, 0x78a5636f, 0x84c87814, 0x8cc70208, 0x90befffa, 0xa4506ceb, 0xbef9a3f7, 0xc67178f2]
  iv := [0x6a09e667, 0xbb67ae85, 0x3c6ef372, 0xa54ff53a, 0x510e527f, 0x9b05688c, 0x1f83d9ab, 0x5be0cd19]
  bigSigma0 := (2, 13, 22)
  bigSigma1 := (6, 11, 25)
  smallSigma0 := (7, 18, 3)
  smallSigma1 := (17, 19, 10)
  size := 32

/-- The round constants of SHA-384 and SHA-512. -/
def k512 : List Nat := [
   0x428a2f98d728ae22, 0x7137449123ef65cd, 0xb5c0fbcfec4d3b2f, 0xe9b5dba58189dbbc,
   0x3956c25bf348b538, 0x59f111f1b605d019, 0x923f82a4af194f9b, 0xab1c5ed5da6d8118,
   0xd807aa98a3030242, 0x12835b0145706fbe, 0x243185be4ee4b28c, 0x550c7dc3d5ffb4e2,
   0x72be5d74f27b896f, 0x80deb1fe3b1696b1, 0x9bdc06a725c71235, 0xc19bf174cf692694,
   0xe49b69c19ef14ad2, 0xefbe4786384f25e3, 0x0fc19dc68b8cd5b5, 0x240ca1cc77ac9c65,
   0x2de92c6f592b0275, 0x4a7484aa6ea6e483, 0x5cb0a9dcbd41fbd4, 0x76f988da831153b5,
   0x983e5152ee66dfab, 0xa831c66d2db43210, 0xb00327c898fb213f, 0xbf597fc7beef0ee4,
   0xc6e00bf33da88fc2, 0xd5a79147930aa725, 0x06ca6351e003826f, 0x142929670a0e6e70,
   0x27b70a8546d22ffc, 0x2e1b21385c26c926, 0x4d2c6dfc5ac42aed, 0x53380d139d95b3df,
   0x650a73548baf63de, 0x766a0abb3c77b2a8, 0x81c2c92e47edaee6, 0x92722c851482353b,
   0xa2bfe8a14cf10364, 0xa81a664bbc423001, 0xc24b8b70d0f89791, 0xc76c51a30654be30,
   0xd192e819d6ef5218, 0xd69906245565a910, 0xf40e35855771202a, 0x106aa07032bbd1b8,
   0x19a4c116b8d2d0c8, 0x1e376c085141ab53, 0x2748774cdf8eeb99, 0x34b0bcb5e19b48a8,
   0x391c0cb3c5c95a63, 0x4ed8aa4ae3418acb, 0x5b9cca4f7763e373, 0x682e6ff3d6b2b8a3,
   0x748f82ee5defb2fc, 0x78a5636f43172f60, 0x84c87814a1f0ab72, 0x8cc702081a6439ec,
   0x90befffa23631e28, 0xa4506cebde82bde9, 0xbef9a3f7b2c67915, 0xc67178f2e372532b,
   0xca273eceea26619c, 0xd186b8c721c0c207, 0xeada7dd6cde0eb1e, 0xf57d4f7fee6ed178,
   0x06f067aa72176fba, 0x0a637dc5a2c898a6, 0x113f9804bef90dae, 0x1b710b35131c471b,
   0x28db77f523047d84, 0x32caab7b40c72493, 0x3c9ebe0a15c9bebc, 0x431d67c49c100d4c,
   0x4cc5d4becb3e42b6, 0x597f299cfc657e2a, 0x5fcb6fab3ad6faec, 0x6c44198c4a475817]

/-- The function SHA-512. -/
def sha512 : Sha2 where
  w := 64
  k := k512
  iv := [0x6a09e667f3bcc908, 0xbb67ae8584caa73b, 0x3c6ef372fe94f82b, 0xa54ff53a5f1d36f1,
         0x510e527fade682d1, 0x9b05688c2b3e6c1f, 0x1f83d9abfb41bd6b, 0x5be0cd19137e2179]
  bigSigma0 := (28, 34, 39)
  bigSigma1 := (14, 18, 41)
  smallSigma0 := (1, 8, 7)
  smallSigma1 := (19, 61, 6)
  size := 64

/-- The function SHA-384: SHA-512 from another initial value, cut to 48 bytes. -/
def sha384 : Sha2 :=
  { sha512 with
    iv := [0xcbbb9d5dc1059ed8, 0x629a292a367cd507, 0x9159015a3070dd17, 0x152fecd8f70e5939,
           0x67332667ffc00b31, 0x8eb44a8768581511, 0xdb0c2e0d64f98fa7, 0x47b5481dbefa4fa4]
    size := 48 }

/-! ## HMAC (`crypto/hmac`) -/

/-- Exclusive or of a byte with a constant. -/
def xorByte (c : Nat) (b : Byte) : Byte := byte (b.val ^^^ c)

/-- The key as `hmac.New` lays it out in a block: hashed when longer than a
block, then filled with zero bytes to the block size. -/
def hmacKeyBlock (p : Sha2) (key : List Byte) : List Byte :=
  let k := if key.length > p.blockSize then p.sum key else key
  k ++ List.replicate (p.blockSize - k.length) (byte 0)

/-- HMAC of `msg` under `key` with the hash `p`. -/
def hmac (p : Sha2) (key msg : List Byte) : List Byte :=
  let kb := hmacKeyBlock p key
  p.sum (kb.map (xorByte 0x5c) ++ p.sum (kb.map (xorByte 0x36) ++ msg))


/-! ## Base64 (`encoding/base64`, `RawURLEncoding`) -/

/-- The character of a 6-bit value in the URL alphabet. -/
def b64Char (n : Nat) : Char :=
  if n < 26 then Char.ofNat (65 + n)
  else if n < 52 then Char.ofNat (71 + n)
  else if n < 62 then Char.ofNat (n - 4)
  else if n = 62 then '-' else '_'

/-- The 6-bit value of a character of the URL alphabet. -/
def b64Value (c : Char) : Option Nat :=
  let n := c.toNat
  if 65 ≤ n ∧ n ≤ 90 then some (n - 65)
  else if 97 ≤ n ∧ n ≤ 122 then some (n - 71)
  else if 48 ≤ n ∧ n ≤ 57 then some (n + 4)
  else if n = 45 then some 62
  else if n = 95 then some 63
  else none

/-- Model of `jwt.EncodeSegment`: unpadded URL-safe base64. -/
def EncodeSegment : List Byte → GoString
  | a :: b :: c :: rest =>
    b64Char (a.val / 4) :: b64Char (a.val % 4 * 16 + b.val / 16) ::
      b64Char (b.val % 16 * 4 + c.val / 64) :: b64Char (c.val % 64) :: EncodeSegment rest
  | [a, b] => [b64Char (a.val / 4), b64Char (a.val % 4 * 16 + b.val / 16), b64Char (b.val % 16 * 4)]
  | [a] => [b64Char (a.val / 4), b64Char (a.val % 4 * 16)]
  | [] => []

/-- The groups of four characters of a base64 text turned into bytes; a last
group of two or three characters gives one or two bytes, its unused low bits
ignored. -/
def decodeQuanta : GoString → Option (List Byte)
  | c0 :: c1 :: c2 :: c3 :: rest => do
    let v0 ← b64Value c0
    let v1 ← b64Value c1
    let v2 ← b64Value c2
    let v3 ← b64Value c3
    let tail ← decodeQuanta rest
    pure (byte (v0 * 4 + v1 / 16) :: byte (v1 % 16 * 16 + v2 / 4) :: byte (v2 % 4 * 64 + v3) :: tail)
  | [c0, c1, c2] => do
    let v0 ← b64Value c0
    let v1 ← b64Value c1
    let v2 ← b64Value c2
    pure [byte (v0 * 4 + v1 / 16), byte (v1 % 16 * 16 + v2 / 4)]
  | [c0, c1] => do
    let v0 ← b64Value c0
    let v1 ← b64Value c1
    pure [byte (v0 * 4 + v1 / 16)]
  | [_] => none
  | [] => some []

/-- Model of `jwt.DecodeSegment` (`base64.RawURLEncoding.DecodeString`): carriage
returns and line feeds are skipped, as the Go decoder does; `none` is a
`base64.CorruptInputError`. -/
def DecodeSegment (seg : GoString) : Option (List Byte) :=
  decodeQuanta (seg.filter fun c => !(c == '\r' || c == '\n'))

/-! ## UTF-8 decoding (`utf8.DecodeRune`) -/

/-- The replacement character U+FFFD (`utf8.RuneError`). -/
def RuneError : Char := Char.ofNat 0xFFFD

/-- Model of `utf8.DecodeRune`: the first code point of `p` and its width in
bytes; `(RuneError, 1)` when `p` does not start with a well-formed encoding. -/
def decodeRune (p : List Byte) : Char × Nat :=
  match p with
  | [] => (RuneError, 0)
  | b0 :: p1 =>
    let x := b0.val
    if x < 0x80 then (Char.ofNat x, 1)
    else if x < 0xC2 ∨ 0xF4 < x then (RuneError, 1)
    else
      let lo := if x = 0xE0 then 0xA0 else if x = 0xF0 then 0x90 else 0x80
      let hi := if x = 0xED then 0x9F else if x = 0xF4 then 0x8F else 0xBF
      match p1 with
      | [] => (RuneError, 1)
      | b1 :: p2 =>
        if b1.val < lo ∨ hi < b1.val then (RuneError, 1)
        else if x < 0xE0 then (Char.ofNat (x % 32 * 64 + b1.val % 64), 2)
        else
          match p2 with
          | [] => (RuneError, 1)
          | b2 :: p3 =>
            if b2.val < 0x80 ∨ 0xBF < b2.val then (RuneError, 1)
            else if x < 0xF0 then
              (Char.ofNat (x % 16 * 4096 + b1.val % 64 * 64 + b2.val % 64), 3)
            else
              match p3 with
              | [] => (RuneError, 1)
              | b3 :: _ =>
                if b3.val < 0x80 ∨ 0xBF < b3.val then (RuneError, 1)
                else
                  (Char.ofNat (x % 8 * 262144 + b1.val % 64 * 4096 + b2.val % 64 * 64 +
                    b3.val % 64), 4)

/-- The code points of a byte sequence read as UTF-8, every byte that starts no
well-formed encoding read as U+FFFD; `fuel` bounds the number of code points. -/
def utf8DecodeAux : Nat → List Byte → GoString
  | 0, _ => []
  | fuel + 1, p =>
    if p.isEmpty then []
    else
      let r := decodeRune p
      r.1 :: utf8DecodeAux fuel (p.drop r.2)

/-- The text of a byte sequence, as `encoding/json` reads it. -/
def utf8Decode (p : List Byte) : GoString := utf8DecodeAux p.length p

/-! ## Numbers (`strconv`) -/

/-- The decimal digit character of `d`. -/
def digitChar (d : Nat) : Char := Char.ofNat (48 + d % 10)

/-- The decimal digits of `n`, most significant first, in front of `acc`;
`fuel` bounds the number of digits. -/
def formatNatAux : Nat → Nat → GoString → GoString
  | 0, _, acc => acc
  | fuel + 1, n, acc =>
    if n < 10 then digitChar n :: acc
    else formatNatAux fuel (n / 10) (digitChar n :: acc)

/-- Decimal text of a natural number. -/
def formatNat (n : Nat) : GoString := formatNatAux (n + 1) n []

/-- Model of `strconv.FormatInt(i, 10)`. -/
def FormatInt (i : Int) : GoString :=
  if i < 0 then '-' :: formatNat i.natAbs else formatNat i.natAbs

/-- Is the character a decimal digit. -/
def isDigit (c : Char) : Bool := 48 ≤ c.toNat && c.toNat ≤ 57

/-- Value of a run of decimal digits. -/
def digitsValue (s : GoString) : Nat := s.foldl (fun acc c => acc * 10 + (c.toNat - 48)) 0

/-- Model of `strconv.ParseInt(s, 10, 64)`: an optional sign and a non-empty
run of digits whose value fits in an `int64`. -/
def ParseInt64 (s : GoString) : Option Int :=
  let neg := s.head? = some '-'
  let body := if neg ∨ s.head? = some '+' then s.drop 1 else s
  if body.isEmpty ∨ ¬ body.all isDigit then none
  else
    let v : Int := if neg then -(digitsValue body : Int) else (digitsValue body : Int)
    if -(2 : Int) ^ 63 ≤ v ∧ v < (2 : Int) ^ 63 then some v else none

/-! ## JSON (`encoding/json`) -/

/-- A JSON value as the decoder sees it; a number keeps its literal text. -/
inductive Json
  | null
  | bool (b : Bool)
  | number (lit : GoString)
  | string (s : GoString)
  | array (xs : List Json)
  | object (kvs : List (GoString × Json))

mutual
/-- Equality of JSON values is decidable. -/
def decEqJson : (a b : Json) → Decidable (a = b)
  | .null, .null => isTrue rfl
  | .bool x, .bool y =>
    if h : x = y then isTrue (by rw [h]) else isFalse (by intro e; cases e; exact h rfl)
  | .number x, .number y =>
    if h : x = y then isTrue (by rw [h]) else isFalse (by intro e; cases e; exact h rfl)
  | .string x, .string y =>
    if h : x = y then isTrue (by rw [h]) else isFalse (by intro e; cases e; exact h rfl)
  | .array x, .array y =>
    match decEqJsonList x y with
    | isTrue h => isTrue (by rw [h])
    | isFalse h => isFalse (by intro e; cases e; exact h rfl)
  | .object x, .object y =>
    match decEqMembers x y with
    | isTrue h => isTrue (by rw [h])
    | isFalse h => isFalse (by intro e; cases e; exact h rfl)
  | .null, .bool _ | .null, .number _ | .null, .string _ | .null, .array _ | .null, .object _
  | .bool _, .null | .bool _, .number _ | .bool _, .string _ | .bool _, .array _
  | .bool _, .object _
  | .number _, .null | .number _, .bool _ | .number _, .string _ | .number _, .array _
  | .number _, .object _
  | .string _, .null | .string _, .bool _ | .string _, .number _ | .string _, .array _
  | .string _, .object _
  | .array _, .null | .array _, .bool _ | .array _, .number _ | .array _, .string _
  | .array _, .object _
  | .object _, .null | .object _, .bool _ | .object _, .number _ | .object _, .string _
  | .object _, .array _ =>
    isFalse (by intro e; cases e)
/-- Equality of lists of JSON values is decidable. -/
def decEqJsonList : (a b : List Json) → Decidable (a = b)
  | [], [] => isTrue rfl
  | [], _ :: _ => isFalse (by intro e; cases e)
  | _ :: _, [] => isFalse (by intro e; cases e)
  | x :: xs, y :: ys =>
    match decEqJson x y, decEqJsonList xs ys with
    | isTrue h1, isTrue h2 => isTrue (by rw [h1, h2])
    | isFalse h, _ => isFalse (by intro e; cases e; exact h rfl)
    | _, isFalse h => isFalse (by intro e; cases e; exact h rfl)
/-- Equality of lists of object members is decidable. -/
def decEqMembers : (a b : List (GoString × Json)) → Decidable (a = b)
  | [], [] => isTrue rfl
  | [], _ :: _ => isFalse (by intro e; cases e)
  | _ :: _, [] => isFalse (by intro e; cases e)
  | (k, x) :: xs, (l, y) :: ys =>
    if hk : k = l then
      match decEqJson x y, decEqMembers xs ys with
      | isTrue h1, isTrue h2 => isTrue (by rw [hk, h1, h2])
      | isFalse h, _ => isFalse (by intro e; cases e; exact h rfl)
      | _, isFalse h => isFalse (by intro e; cases e; exact h rfl)
    else isFalse (by intro e; cases e; exact hk rfl)
end

instance : DecidableEq Json := decEqJson

deriving instance DecidableEq for Except

/-- The lower-case hexadecimal digit of `d`. -/
def hexDigit (d : Nat) : Char :=
  if d % 16 < 10 then Char.ofNat (48 + d % 16) else Char.ofNat (87 + d % 16)

/-- The value of a hexadecimal digit. -/
def hexValue (c : Char) : Option Nat :=
  let n := c.toNat
  if 48 ≤ n ∧ n ≤ 57 then some (n - 48)
  else if 97 ≤ n ∧ n ≤ 102 then some (n - 87)
  else if 65 ≤ n ∧ n ≤ 70 then some (n - 55)
  else none

/-- The escape `\uXXXX` of a code point below `0x10000`. -/
def escapeU (n : Nat) : GoString :=
  ['\\', 'u', hexDigit (n / 4096), hexDigit (n / 256), hexDigit (n / 16), hexDigit n]

/-- How the encoder writes one code point inside a string (`appendString` with
HTML escaping on, the setting of `json.Marshal`). -/
def escapeChar (c : Char) : GoString :=
  let n := c.toNat
  if c = '"' ∨ c = '\\' then ['\\', c]
  else if n = 0x08 then ['\\', 'b']
  else if n = 0x0C then ['\\', 'f']
  else if n = 0x0A then ['\\', 'n']
  else if n = 0x0D then ['\\', 'r']
  else if n = 0x09 then ['\\', 't']
  else if n < 0x20 ∨ c = '<' ∨ c = '>' ∨ c = '&' ∨ n = 0x2028 ∨ n = 0x2029 then escapeU n
  else [c]

/-- A string as a JSON string literal. -/
def quote (s : GoString) : GoString := '"' :: s.flatMap escapeChar ++ ['"']

/-- The four hexadecimal digits after `\u` (`getu4`), with what follows them. -/
def getu4 (s : GoString) : Option (Nat × GoString) :=
  match s with
  | h0 :: h1 :: h2 :: h3 :: rest => do
    let v0 ← hexValue h0
    let v1 ← hexValue h1
    let v2 ← hexValue h2
    let v3 ← hexValue h3
    pure (v0 * 4096 + v1 * 256 + v2 * 16 + v3, rest)
  | _ => none

/-- The low surrogate escape that may follow a high surrogate: its value and
the text after it. -/
def lowSurrogate (s : GoString) : Option (Nat × GoString) :=
  match s with
  | c0 :: c1 :: rest =>
    if c0 = '\\' ∧ c1 = 'u' then
      match getu4 rest with
      | some (v, rest1) => if 0xDC00 ≤ v ∧ v < 0xE000 then some (v, rest1) else none
      | none => none
    else none
  | _ => none

/-- The body of a string literal, after its opening quote: the string it
denotes and the text after the closing quote (the scanner's string states
and `unquote`). -/
def parseStringBody : Nat → GoString → Option (GoString × GoString)
  | 0, _ => none
  | _ + 1, [] => none
  | fuel + 1, c :: rest =>
    if c = '"' then some ([], rest)
    else if c = '\\' then
      match rest with
      | [] => none
      | e :: rest1 =>
        if e = 'u' then
          match getu4 rest1 with
          | none => none
          | some (v, rest2) =>
            if 0xD800 ≤ v ∧ v < 0xE000 then
              match (if v < 0xDC00 then lowSurrogate rest2 else none) with
              | some (v1, rest3) =>
                (parseStringBody fuel rest3).map fun r =>
                  (Char.ofNat ((v - 0xD800) * 1024 + (v1 - 0xDC00) + 0x10000) :: r.1, r.2)
              | none => (parseStringBody fuel rest2).map fun r => (RuneError :: r.1, r.2)
            else (parseStringBody fuel rest2).map fun r => (Char.ofNat v :: r.1, r.2)
        else
          let d : Option Char :=
            if e = '"' ∨ e = '\\' ∨ e = '/' then some e
            else if e = 'b' then some (Char.ofNat 0x08)
            else if e = 'f' then some (Char.ofNat 0x0C)
            else if e = 'n' then some (Char.ofNat 0x0A)
            else if e = 'r' then some (Char.ofNat 0x0D)
            else if e = 't' then some (Char.ofNat 0x09)
            else none
          match d with
          | none => none
          | some x => (parseStringBody fuel rest1).map fun r => (x :: r.1, r.2)
    else if c.toNat < 0x20 then none
    else (parseStringBody fuel rest).map fun r => (c :: r.1, r.2)

/-- The white space of JSON. -/
def isJsonSpace (c : Char) : Bool := c = ' ' || c = '\t' || c = '\r' || c = '\n'

/-- Text without its leading JSON white space. -/
def skipSpace (s : GoString) : GoString := s.dropWhile isJsonSpace

/-- A non-empty run of digits at the head of `s`, and the rest. -/
def digitRun (s : GoString) : Option (GoString × GoString) :=
  let ds := s.takeWhile isDigit
  if ds.isEmpty then none else some (ds, s.dropWhile isDigit)

/-- The sign of a number literal at the head of `s`, and the rest. -/
def parseSign (s : GoString) : GoString × GoString :=
  if s.head? = some '-' then (['-'], s.drop 1) else ([], s)

/-- The integer part of a number literal: a single `0`, or a run of digits that
does not start with `0`. -/
def parseIntPart (s : GoString) : Option (GoString × GoString) :=
  if s.head? = some '0' then some (['0'], s.drop 1) else digitRun s

/-- The optional fraction of a number literal: a point and a run of digits. -/
def parseFrac (s : GoString) : Option (GoString × GoString) :=
  if s.head? = some '.' then (digitRun (s.drop 1)).map fun r => ('.' :: r.1, r.2)
  else some ([], s)

/-- The optional exponent of a number literal: `e` or `E`, an optional sign and
a run of digits. -/
def parseExp (s : GoString) : Option (GoString × GoString) :=
  if s.head? = some 'e' ∨ s.head? = some 'E' then
    let t := s.drop 1
    if t.head? = some '+' ∨ t.head? = some '-' then
      (digitRun (t.drop 1)).map fun r => (s.take 2 ++ r.1, r.2)
    else (digitRun t).map fun r => (s.take 1 ++ r.1, r.2)
  else some ([], s)

/-- A number literal at the head of `s` (sign, integer part, optional fraction
and exponent), and the rest. -/
def parseNumber (s : GoString) : Option (GoString × GoString) :=
  (parseIntPart (parseSign s).2).bind fun i =>
    (parseFrac i.2).bind fun f =>
      (parseExp f.2).bind fun e =>
        some ((parseSign s).1 ++ i.1 ++ f.1 ++ e.1, e.2)

/-- The deepest nesting of arrays and objects the scanner accepts. -/
def maxNestingDepth : Nat := 10000

mutual
/-- A JSON value at the head of `s` and the text after it. `depth` is the
number of arrays and objects already open; `fuel` bounds the recursion. -/
def parseValue : Nat → Nat → GoString → Option (Json × GoString)
  | 0, _, _ => none
  | _ + 1, _, [] => none
  | fuel + 1, depth, c :: rest =>
    if c = '{' then
      if depth + 1 > maxNestingDepth then none
      else
        let r := skipSpace rest
        if r.head? = some '}' then some (Json.object [], r.drop 1)
        else (parseMembers fuel (depth + 1) r).map fun x => (Json.object x.1, x.2)
    else if c = '[' then
      if depth + 1 > maxNestingDepth then none
      else
        let r := skipSpace rest
        if r.head? = some ']' then some (Json.array [], r.drop 1)
        else (parseElements fuel (depth + 1) r).map fun x => (Json.array x.1, x.2)
    else if c = '"' then
      (parseStringBody (rest.length + 1) rest).map fun x => (Json.string x.1, x.2)
    else if c = 't' then
      if HasPrefix rest "rue".toList then some (Json.bool true, rest.drop 3) else none
    else if c = 'f' then
      if HasPrefix rest "alse".toList then some (Json.bool false, rest.drop 4) else none
    else if c = 'n' then
      if HasPrefix rest "ull".toList then some (Json.null, rest.drop 3) else none
    else (parseNumber (c :: rest)).map fun x => (Json.number x.1, x.2)
/-- The members of an object from its first key to its closing brace. -/
def parseMembers : Nat → Nat → GoString → Option (List (GoString × Json) × GoString)
  | 0, _, _ => none
  | fuel + 1, depth, s =>
    if s.head? = some '"' then
      match parseStringBody s.length (s.drop 1) with
      | none => none
      | some (key, r1) =>
        let r2 := skipSpace r1
        if r2.head? = some ':' then
          match parseValue fuel depth (skipSpace (r2.drop 1)) with
          | none => none
          | some (v, r3) =>
            let r4 := skipSpace r3
            if r4.head? = some ',' then
              (parseMembers fuel depth (skipSpace (r4.drop 1))).map fun x => ((key, v) :: x.1, x.2)
            else if r4.head? = some '}' then some ([(key, v)], r4.drop 1)
            else none
        else none
    else none
/-- The elements of an array from its first element to its closing bracket. -/
def parseElements : Nat → Nat → GoString → Option (List Json × GoString)
  | 0, _, _ => none
  | fuel + 1, depth, s =>
    match parseValue fuel depth s with
    | none => none
    | some (v, r1) =>
      let r2 := skipSpace r1
      if r2.head? = some ',' then
        (parseElements fuel depth (skipSpace (r2.drop 1))).map fun x => (v :: x.1, x.2)
      else if r2.head? = some ']' then some ([v], r2.drop 1)
      else none
end

/-- The first JSON value of a text, after leading white space, and what follows
it. -/
def parseJson (s : GoString) : Option (Json × GoString) :=
  parseValue (s.length + 1) 0 (skipSpace s)

/-! ## Durations and instants (`time`) -/

/-- A Go `int64` from an integer, by two's complement wrap-around. -/
def wrapInt64 (v : Int) : Int := (v + 2 ^ 63) % 2 ^ 64 - 2 ^ 63

/-- The value `time.Second`, in nanoseconds. -/
def Second : Int := 1000000000

/-- The value `time.Minute`. -/
def Minute : Int := 60 * Second

/-- The value `time.Hour`. -/
def Hour : Int := 60 * Minute

/-- An instant, as nanoseconds since the Unix epoch. -/
abbrev Time := Int

/-- Model of `Time.Add`. -/
def Time.Add (t : Time) (d : Int) : Time := t + d

/-- Model of `Time.Unix`: whole seconds since the epoch, rounded down. -/
def Time.Unix (t : Time) : Int := t / Second

/-- The constant `unixToInternal` of package `time`: the seconds from the start
of year 1 to the Unix epoch. -/
def unixToInternal : Int := 62135596800

/-- Model of `time.Unix(sec, 0)` for the value `sec` of a time claim: the
instant as the `int64` count of seconds since year 1 that a `time.Time` holds.
The sum `sec + unixToInternal` is an `int64` sum and wraps around. -/
def unixTime (sec : Int) : Int := wrapInt64 (sec + unixToInternal)

/-- Model of `time.Unix(now, 0)` for the seconds `now = TimeFunc().Unix()` of a
clock reading: the count of seconds since year 1 that the reading holds.
`Unix` takes `unixToInternal` away from that count and `time.Unix` adds it
again, both in `int64`, so the result is the count of the reading whatever
wraps in between. -/
def clockTime (now : Int) : Int := now + unixToInternal

/-- Model of `time.Unix(a, 0).Sub(time.Unix(b, 0))` for the seconds `a` of a
clock reading and the value `b` of a time claim: the difference of the two
instants as a `Duration`, held at the largest or smallest `int64` when it does
not fit. -/
def subUnix (a b : Int) : Int :=
  let d := (clockTime a - unixTime b) * Second
  if d > 2 ^ 63 - 1 then 2 ^ 63 - 1 else if d < -(2 ^ 63) then -(2 ^ 63) else d

/-- The helper `fmtFrac` of `Duration.String`: the digits of `v % 10^prec`
without trailing zeros, after a decimal point, or nothing when there are
none. -/
def fmtFrac : Nat → Nat → Bool → GoString → GoString
  | 0, _, printed, acc => if printed then '.' :: acc else acc
  | prec + 1, v, printed, acc =>
    let digit := v % 10
    let printed' := printed || digit != 0
    fmtFrac prec (v / 10) printed' (if printed' then digitChar digit :: acc else acc)

/-- Model of `Duration.String`. -/
def durationString (d : Int) : GoString :=
  let u := d.natAbs
  let body : GoString :=
    if u = 0 then "0s".toList
    else if u < 1000 then formatNat u ++ "ns".toList
    else if u < 1000000 then formatNat (u / 1000) ++ fmtFrac 3 u false "µs".toList
    else if u < 1000000000 then formatNat (u / 1000000) ++ fmtFrac 6 u false "ms".toList
    else
      let secs := u / 1000000000
      let s := formatNat (secs % 60) ++ fmtFrac 9 u false ['s']
      let mins := secs / 60
      if mins = 0 then s
      else
        let m := formatNat (mins % 60) ++ 'm' :: s
        let hours := mins / 60
        if hours = 0 then m else formatNat hours ++ 'h' :: m
  if d < 0 then '-' :: body else body

/-! ## Package `github.com/golang-jwt/jwt/v4` -/

/-- Model of `jwt.StandardClaims`. -/
structure StandardClaims where
  Audience : GoString := []
  ExpiresAt : Int := 0
  Id : GoString := []
  IssuedAt : Int := 0
  Issuer : GoString := []
  NotBefore : Int := 0
  Subject : GoString := []
  deriving DecidableEq, Repr

/-- Model of `services.JWTClaims`, which embeds `jwt.StandardClaims` and adds
nothing. -/
structure JWTClaims extends StandardClaims
  deriving DecidableEq, Repr

/-- Bit of `ValidationError.Errors`: the token is malformed. -/
def ValidationErrorMalformed : Nat := 1

/-- Bit of `ValidationError.Errors`: the token could not be verified. -/
def ValidationErrorUnverifiable : Nat := 2

/-- Bit of `ValidationError.Errors`: the signature does not verify. -/
def ValidationErrorSignatureInvalid : Nat := 4

/-- Bit of `ValidationError.Errors`: the check of `exp` failed. -/
def ValidationErrorExpired : Nat := 16

/-- Bit of `ValidationError.Errors`: the check of `iat` failed. -/
def ValidationErrorIssuedAt : Nat := 32

/-- Bit of `ValidationError.Errors`: the check of `nbf` failed. -/
def ValidationErrorNotValidYet : Nat := 128

/-- Model of `jwt.ValidationError`. An inner `error` is kept as its message. -/
structure ValidationError where
  Inner : Option GoString := none
  Errors : Nat := 0
  text : GoString := []
  deriving DecidableEq, Repr

/-- Model of `ValidationError.Error`. -/
def ValidationError.Error (e : ValidationError) : GoString :=
  match e.Inner with
  | some m => m
  | none => if e.text ≠ [] then e.text else "token is invalid".toList

/-- Model of `ValidationError.valid`. -/
def ValidationError.valid (e : ValidationError) : Bool := e.Errors = 0

/-- Model of `StandardClaims.VerifyExpiresAt`: a zero `exp` counts as absent,
otherwise the time `cmp` has to be strictly before `time.Unix(exp, 0)`
(`now.Before(exp)`). -/
def StandardClaims.VerifyExpiresAt (c : StandardClaims) (cmp : Int) (req : Bool) : Bool :=
  if c.ExpiresAt = 0 then !req else decide (clockTime cmp < unixTime c.ExpiresAt)

/-- Model of `StandardClaims.VerifyIssuedAt`: a zero `iat` counts as absent,
otherwise the time `cmp` has to be at or after `time.Unix(iat, 0)`
(`now.After(iat) || now.Equal(iat)`). -/
def StandardClaims.VerifyIssuedAt (c : StandardClaims) (cmp : Int) (req : Bool) : Bool :=
  if c.IssuedAt = 0 then !req else decide (unixTime c.IssuedAt ≤ clockTime cmp)

/-- Model of `StandardClaims.VerifyNotBefore`: a zero `nbf` counts as absent,
otherwise the time `cmp` has to be at or after `time.Unix(nbf, 0)`
(`now.After(nbf) || now.Equal(nbf)`). -/
def StandardClaims.VerifyNotBefore (c : StandardClaims) (cmp : Int) (req : Bool) : Bool :=
  if c.NotBefore = 0 then !req else decide (unixTime c.NotBefore ≤ clockTime cmp)

/-- The error of `StandardClaims.Valid` after its check of `exp`. -/
def checkExpiresAt (c : StandardClaims) (now : Int) (vErr : ValidationError) : ValidationError :=
  if !c.VerifyExpiresAt now false then
    { vErr with
      Inner := some ("token is expired by ".toList ++ durationString (subUnix now c.ExpiresAt))
      Errors := vErr.Errors ||| ValidationErrorExpired }
  else vErr

/-- The error of `StandardClaims.Valid` after its check of `iat`. -/
def checkIssuedAt (c : StandardClaims) (now : Int) (vErr : ValidationError) : ValidationError :=
  if !c.VerifyIssuedAt now false then
    { vErr with
      Inner := some "token used before issued".toList
      Errors := vErr.Errors ||| ValidationErrorIssuedAt }
  else vErr

/-- The error of `StandardClaims.Valid` after its check of `nbf`. -/
def checkNotBefore (c : StandardClaims) (now : Int) (vErr : ValidationError) : ValidationError :=
  if !c.VerifyNotBefore now false then
    { vErr with
      Inner := some "token is not valid yet".toList
      Errors := vErr.Errors ||| ValidationErrorNotValidYet }
  else vErr

/-- Model of `StandardClaims.Valid` at the clock reading `now` (the value of
`TimeFunc()`): the three checks in turn, each on the error the one before left,
and the error returned if any check failed. -/
def StandardClaims.Valid (c : StandardClaims) (now : Time) : Option ValidationError :=
  let vErr := checkNotBefore c now.Unix (checkIssuedAt c now.Unix (checkExpiresAt c now.Unix {}))
  if vErr.valid then none else some vErr

/-- The signing methods registered by the package. -/
inductive SigningMethod
  | HS256 | HS384 | HS512
  | RS256 | RS384 | RS512
  | PS256 | PS384 | PS512
  | ES256 | ES384 | ES512
  | EdDSA
  | none
  deriving DecidableEq, Repr

/-- Model of `SigningMethod.Alg`. -/
def SigningMethod.Alg : SigningMethod → GoString
  | .HS256 => "HS256".toList | .HS384 => "HS384".toList | .HS512 => "HS512".toList
  | .RS256 => "RS256".toList | .RS384 => "RS384".toList | .RS512 => "RS512".toList
  | .PS256 => "PS256".toList | .PS384 => "PS384".toList | .PS512 => "PS512".toList
  | .ES256 => "ES256".toList | .ES384 => "ES384".toList | .ES512 => "ES512".toList
  | .EdDSA => "EdDSA".toList
  | .none => "none".toList

/-- Model of `jwt.GetSigningMethod`. -/
def GetSigningMethod (alg : GoString) : Option SigningMethod :=
  [SigningMethod.HS256, .HS384, .HS512, .RS256, .RS384, .RS512, .PS256, .PS384, .PS512,
    .ES256, .ES384, .ES512, .EdDSA, .none].find? fun m => m.Alg == alg

/-- The hash of an HMAC signing method. -/
def SigningMethod.hash : SigningMethod → Option Sha2
  | .HS256 => some sha256
  | .HS384 => some sha384
  | .HS512 => some sha512
  | _ => Option.none

/-- The message of a `base64.CorruptInputError`, without the offset it ends
with. -/
def corruptInputError : GoString := "illegal base64 data at input byte".toList

/-- Model of `SigningMethod.Verify` for a key of type `[]byte`: the message of
the error it returns, if any. Only the HMAC methods take such a key. -/
def SigningMethod.Verify (m : SigningMethod) (signingString signature : GoString)
    (key : List Byte) : Option GoString :=
  match m.hash with
  | some h =>
    match DecodeSegment signature with
    | Option.none => some corruptInputError
    | some sig =>
      if sig = hmac h key (utf8Encode signingString) then Option.none
      else some "signature is invalid".toList
  | Option.none =>
    match m with
    | .none => some "'none' signature type is not allowed".toList
    | .EdDSA => some "key is of invalid type".toList
    | .PS256 | .PS384 | .PS512 =>
      if (DecodeSegment signature).isNone then some corruptInputError
      else some "key is invalid".toList
    | _ =>
      if (DecodeSegment signature).isNone then some corruptInputError
      else some "key is of invalid type".toList

/-- Model of `SigningMethodHMAC.Sign` for a key of type `[]byte`. -/
def SigningMethod.Sign (h : Sha2) (signingString : GoString) (key : List Byte) : GoString :=
  EncodeSegment (hmac h key (utf8Encode signingString))

/-- What `token.Claims` holds: the claims type of this service, or another. -/
inductive Claims
  | jwtClaims (c : JWTClaims)
  | other
  deriving DecidableEq, Repr

/-- Model of `jwt.Token`. -/
structure Token where
  Raw : GoString
  Method : SigningMethod
  Header : List (GoString × Json)
  Claims : Claims
  Signature : GoString
  Valid : Bool
  deriving DecidableEq

/-- The message of a syntax or type error of `encoding/json`, without the
detail the package adds to it. -/
def jsonError : GoString := "json: invalid input".toList

/-- The value of a string-typed field after a member with value `v`: `null`
leaves the field as it is, any value that is no string is a type error. -/
def setString (old : GoString) (v : Json) : Option GoString :=
  match v with
  | .string s => some s
  | .null => some old
  | _ => none

/-- The value of an `int64` field after a member with value `v`: the literal
has to be an integer in range. -/
def setInt64 (old : Int) (v : Json) : Option Int :=
  match v with
  | .number lit => ParseInt64 lit
  | .null => some old
  | _ => none

/-- The canonical form under simple case folding of a character that may fold
to an ASCII letter: the upper-case letter (U+017F and U+212A fold to `S` and
`K`). -/
def foldRune (c : Char) : Char :=
  let n := c.toNat
  if 97 ≤ n ∧ n ≤ 122 then Char.ofNat (n - 32)
  else if n = 0x17F then 'S'
  else if n = 0x212A then 'K'
  else c

/-- Does the object key name the field, the way `encoding/json` matches keys:
equal up to case folding. The field names are ASCII. -/
def keyMatches (key field : GoString) : Bool := key.map foldRune == field.map foldRune

/-- One member of a claims object stored into the claims. A key that names no
field is skipped. -/
def setClaim (c : JWTClaims) (kv : GoString × Json) : Option JWTClaims :=
  if keyMatches kv.1 "aud".toList then (setString c.Audience kv.2).map fun x => { c with Audience := x }
  else if keyMatches kv.1 "exp".toList then (setInt64 c.ExpiresAt kv.2).map fun x => { c with ExpiresAt := x }
  else if keyMatches kv.1 "jti".toList then (setString c.Id kv.2).map fun x => { c with Id := x }
  else if keyMatches kv.1 "iat".toList then (setInt64 c.IssuedAt kv.2).map fun x => { c with IssuedAt := x }
  else if keyMatches kv.1 "iss".toList then (setString c.Issuer kv.2).map fun x => { c with Issuer := x }
  else if keyMatches kv.1 "nbf".toList then (setInt64 c.NotBefore kv.2).map fun x => { c with NotBefore := x }
  else if keyMatches kv.1 "sub".toList then (setString c.Subject kv.2).map fun x => { c with Subject := x }
  else some c

/-- The members of a claims object stored one after the other. -/
def setClaims : JWTClaims → List (GoString × Json) → Option JWTClaims
  | c, [] => some c
  | c, kv :: kvs => (setClaim c kv).bind fun c' => setClaims c' kvs

/-- Model of `json.NewDecoder(...).Decode(&claims)` for `claims = &JWTClaims{}`:
the first JSON value of the input is read, what follows it is left alone. An
object fills the fields, `null` changes nothing, any other value is a type
error; `none` is an error of the decoder. -/
def decodeClaims (data : List Byte) : Option JWTClaims :=
  match parseJson (utf8Decode data) with
  | some (.object kvs, _) => setClaims {} kvs
  | some (.null, _) => some {}
  | _ => none

/-- Model of `json.Unmarshal(data, &token.Header)` for a `map[string]interface{}`:
the input has to be one JSON value, an object or `null`. -/
def unmarshalHeader (data : List Byte) : Option (List (GoString × Json)) :=
  match parseJson (utf8Decode data) with
  | some (.object kvs, rest) => if (skipSpace rest).isEmpty then some kvs else none
  | some (.null, rest) => if (skipSpace rest).isEmpty then some [] else none
  | _ => none

/-- The value a map built from the members holds under `key`: that of the last
member with the key. -/
def lookupKey (kvs : List (GoString × Json)) (key : GoString) : Option Json :=
  (kvs.reverse.find? fun kv => kv.1 == key).map fun kv => kv.2

/-- The value of a field of the claims: a `string` or an `int64`. -/
inductive FieldValue
  | string (s : GoString)
  | int64 (i : Int)
  deriving DecidableEq, Repr

/-- The text `json.Marshal` writes for a field value. -/
def FieldValue.marshal : FieldValue → GoString
  | .string s => quote s
  | .int64 i => FormatInt i

/-- The JSON value the decoder reads back from that text. -/
def FieldValue.toJson : FieldValue → Json
  | .string s => Json.string s
  | .int64 i => Json.number (FormatInt i)

/-- The members of a JSON object as `json.Marshal` writes them. -/
def marshalMembers : List (GoString × FieldValue) → GoString
  | [] => []
  | [kv] => quote kv.1 ++ ':' :: kv.2.marshal
  | kv :: kvs => quote kv.1 ++ ':' :: kv.2.marshal ++ ',' :: marshalMembers kvs

/-- A string field under its key, left out when empty (`omitempty`). -/
def stringField (k : GoString) (v : GoString) : List (GoString × FieldValue) :=
  if v.isEmpty then [] else [(k, .string v)]

/-- An `int64` field under its key, left out when zero (`omitempty`). -/
def int64Field (k : GoString) (v : Int) : List (GoString × FieldValue) :=
  if v = 0 then [] else [(k, .int64 v)]

/-- The fields of a `JWTClaims` that `json.Marshal` writes, in the order of the
struct. -/
def claimsFields (c : JWTClaims) : List (GoString × FieldValue) :=
  stringField "aud".toList c.Audience ++ int64Field "exp".toList c.ExpiresAt ++
  stringField "jti".toList c.Id ++ int64Field "iat".toList c.IssuedAt ++
  stringField "iss".toList c.Issuer ++ int64Field "nbf".toList c.NotBefore ++
  stringField "sub".toList c.Subject

/-- Model of `json.Marshal` on a `JWTClaims`. -/
def marshalClaims (c : JWTClaims) : GoString :=
  '{' :: marshalMembers (claimsFields c) ++ ['}']

/-- Model of `json.Marshal` on the header `{"typ": "JWT", "alg": alg}` of
`jwt.NewWithClaims`: the keys of a map are written in sorted order. -/
def marshalHeader (m : SigningMethod) : GoString :=
  '{' :: marshalMembers [("alg".toList, .string m.Alg), ("typ".toList, .string "JWT".toList)]
    ++ ['}']

/-- Model of `strings.Split` for a separator of one character. -/
def Split (s : GoString) (sep : Char) : List GoString :=
  match s with
  | [] => [[]]
  | c :: rest =>
    if c = sep then [] :: Split rest sep
    else
      match Split rest sep with
      | [] => [[c]]
      | p :: ps => (c :: p) :: ps

/-- Lower case of an ASCII letter, other characters unchanged. -/
def asciiLower (c : Char) : Char :=
  if 65 ≤ c.toNat ∧ c.toNat ≤ 90 then Char.ofNat (c.toNat + 32) else c

/-- Model of `Parser.ParseUnverified` for `claims = &JWTClaims{}`: the token
with its header, claims and method, and the three segments, or the error. -/
def ParseUnverified (tokenString : GoString) :
    Except ValidationError (Token × GoString × GoString × GoString) :=
  match Split tokenString '.' with
  | [p0, p1, p2] =>
    match DecodeSegment p0 with
    | none =>
      if HasPrefix (tokenString.map asciiLower) "bearer ".toList then
        .error { text := "tokenstring should not contain 'bearer '".toList,
                 Errors := ValidationErrorMalformed }
      else .error { Inner := some corruptInputError, Errors := ValidationErrorMalformed }
    | some headerBytes =>
      match unmarshalHeader headerBytes with
      | none => .error { Inner := some jsonError, Errors := ValidationErrorMalformed }
      | some header =>
        match DecodeSegment p1 with
        | none => .error { Inner := some corruptInputError, Errors := ValidationErrorMalformed }
        | some claimBytes =>
          match decodeClaims claimBytes with
          | none => .error { Inner := some jsonError, Errors := ValidationErrorMalformed }
          | some claims =>
            match lookupKey header "alg".toList with
            | some (.string alg) =>
              match GetSigningMethod alg with
              | some m =>
                .ok ({ Raw := tokenString, Method := m, Header := header,
                       Claims := .jwtClaims claims, Signature := [], Valid := false }, p0, p1, p2)
              | none =>
                .error { text := "signing method (alg) is unavailable.".toList,
                         Errors := ValidationErrorUnverifiable }
            | _ =>
              .error { text := "signing method (alg) is unspecified.".toList,
                       Errors := ValidationErrorUnverifiable }
  | _ =>
    .error { text := "token contains an invalid number of segments".toList,
             Errors := ValidationErrorMalformed }

/-- Model of `jwt.ParseWithClaims(tokenString, &JWTClaims{}, keyFunc)` with a
key function that returns `key` and no error, at the clock reading `now`. The
claims are validated before the signature, and a signature error takes the
place of the inner error of a claims error. The token the source returns next
to an error is left out: the service drops it. -/
def ParseWithClaims (tokenString : GoString) (key : List Byte) (now : Time) :
    Except ValidationError Token :=
  match ParseUnverified tokenString with
  | .error e => .error e
  | .ok (token, p0, p1, p2) =>
    let vErr : ValidationError :=
      match token.Claims with
      | .jwtClaims c => (c.toStandardClaims.Valid now).getD {}
      | .other => {}
    let token := { token with Signature := p2 }
    let vErr :=
      match token.Method.Verify (p0 ++ '.' :: p1) p2 key with
      | some msg =>
        { vErr with Inner := some msg, Errors := vErr.Errors ||| ValidationErrorSignatureInvalid }
      | none => vErr
    if vErr.valid then .ok { token with Valid := true } else .error vErr

/-- Model of `Token.SigningString` for the token of
`jwt.NewWithClaims(jwt.SigningMethodHS256, claims)`: header and claims as JSON,
each in base64, joined by a dot. -/
def SigningString (claims : JWTClaims) : GoString :=
  EncodeSegment (utf8Encode (marshalHeader .HS256)) ++
    '.' :: EncodeSegment (utf8Encode (marshalClaims claims))

/-- Model of `jwt.NewWithClaims(jwt.SigningMethodHS256, claims).SignedString(key)`
for a key of type `[]byte`: the signing string, a dot and the signature of the
signing string; the error it returns, by its message, is always `nil`. -/
def SignedString (claims : JWTClaims) (key : List Byte) : GoString × Option GoString :=
  let sstr := SigningString claims
  (sstr ++ '.' :: SigningMethod.Sign sha256 sstr key, none)

/-! ## Package `letschat/errors` and `letschat/responses` -/

/-- The error types of `letschat/errors` the two files use. -/
inductive ErrorType
  | BadRequest
  | Unauthorized
  deriving DecidableEq, Repr

/-- Modelled from the spec: package `letschat/errors` is not among the sources.
An `error` that reaches the handlers is an error value of a library, known by
its message, a `*jwt.ValidationError`, or the result of the calls of
`letschat/errors` the source makes, kept as the term of these calls. -/
inductive Error
  | lib (msg : GoString)
  | jwt (e : ValidationError)
  | New (t : ErrorType) (msg : GoString)
  | Wrap (t : ErrorType) (cause : Error) (msg : GoString)
  | SetCustomMessage (e : Error) (msg : GoString)
  | AddErrorContextBlock (e : Error) (block : List (GoString × GoString))
  deriving DecidableEq, Repr

/-- Modelled from the spec: the error type an error of `letschat/errors`
carries, the one it was created or last wrapped with. -/
def Error.type : Error → Option ErrorType
  | .lib _ => none
  | .jwt _ => none
  | .New t _ => some t
  | .Wrap t _ _ => some t
  | .SetCustomMessage e _ => e.type
  | .AddErrorContextBlock e _ => e.type

/-- A value of a response body (`interface{}` in a `map[string]interface{}`). -/
inductive Value
  | string (s : GoString)
  | int64 (i : Int)
  | map (m : List (GoString × GoString))
  deriving DecidableEq, Repr

/-- Modelled from the spec: package `letschat/responses` is not among the
sources. A response is the call of that package the handler ends with, and
its arguments. -/
inductive Response
  | ErrorJSON (status : Nat) (message : GoString)
  | HandleError (err : Error)
  | SuccessJSON (status : Nat) (data : List (GoString × Value))
  deriving DecidableEq, Repr

/-- The value `http.StatusOK`. -/
def StatusOK : Nat := 200

/-- The value `http.StatusBadRequest`. -/
def StatusBadRequest : Nat := 400

/-- The value `http.StatusInternalServerError`. -/
def StatusInternalServerError : Nat := 500

/-! ## `api/services/jwt_auth.go` -/

/-- Embedding of `JWTAuthService.GetTokenFromHeader`; `header` is
`c.GetHeader("Authorization")`, empty when the request has no such header. -/
def GetTokenFromHeader (header : GoString) : GoString × Option Error :=
  if header = [] then
    let err := Error.New .BadRequest "Authorization token is required in header".toList
    let err := Error.SetCustomMessage err "Authorization token is required in header".toList
    ([], some err)
  else if !Contains header "Bearer".toList then
    let err := Error.New .BadRequest "Token type is required".toList
    ([], some err)
  else
    let tokenString := TrimSpace (Replace header "Bearer".toList [] 1)
    (tokenString, none)

/-- Embedding of `JWTAuthService.ParseToken`; `now` is the clock reading of the
library when it validates the claims. -/
def ParseToken (tokenString secret : GoString) (now : Time) : Except Error Token :=
  match ParseWithClaims tokenString (utf8Encode secret) now with
  | .error err =>
    if !Contains err.Error "expired".toList then
      let err := Error.New .BadRequest "Invalid ID token".toList
      .error err
    else .error (Error.jwt err)
  | .ok token => .ok token

/-- Embedding of `JWTAuthService.VerifyToken`. -/
def VerifyToken (token : Token) : Except Error JWTClaims :=
  match token.Claims with
  | .jwtClaims claims =>
    if !token.Valid then
      let err := Error.New .BadRequest "Invalid token".toList
      let err := Error.SetCustomMessage err "Invalid token".toList
      .error err
    else .ok claims
  | .other =>
    let err := Error.New .BadRequest "Invalid token".toList
    let err := Error.SetCustomMessage err "Invalid token".toList
    .error err

/-- Embedding of `JWTAuthService.GenerateToken`: the token and the error, an
error of the library known by its message. -/
def GenerateToken (claims : JWTClaims) (secret : GoString) : GoString × Option GoString :=
  let (token, tokenErr) := SignedString claims (utf8Encode secret)
  match tokenErr with
  | some e => ([], some e)
  | none => (token, none)

/-! ## `api/controllers/jwt_token.go` -/

/-- The fields of `infrastructure.Env` the controller reads. -/
structure Env where
  JwtAccessSecret : GoString
  JwtRefreshSecret : GoString
  JwtAccessTokenExpiresAt : Int
  JwtRefreshTokenExpiresAt : Int

/-- The fields of `dtos.JWTLoginRequestData` the controller reads. -/
structure JWTLoginRequestData where
  Phone : GoString
  Password : GoString
  deriving DecidableEq, Repr

/-- What the controller uses of a `models.User`: `UserId` is the text
`fmt.Sprintf("%v", user.UserId)`, `ToMap` the result of `user.ToMap()`. -/
structure User where
  UserId : GoString
  Password : GoString
  ToMap : List (GoString × GoString)
  deriving DecidableEq, Repr

/-- The collaborators of `ObtainJwtToken` and what they do on the request at
hand. -/
structure Collaborators where
  /-- The request data and error after `c.ShouldBindJSON(&reqData)`. -/
  ShouldBindJSON : JWTLoginRequestData × Option Error
  /-- The call `cc.validator.Validate.Struct`. -/
  ValidateStruct : JWTLoginRequestData → Option Error
  /-- The call `cc.validator.GenerateValidationResponse`. -/
  GenerateValidationResponse : Error → List (GoString × GoString)
  /-- The call `cc.userService.CheckUserWithPhone`. -/
  CheckUserWithPhone : GoString → User × Bool × Option Error
  /-- The call `helper.CompareHashAndPlainPassword`. -/
  CompareHashAndPlainPassword : GoString → GoString → Bool

/-- What a handler did: the response it wrote and the calls of `GenerateToken`
it made, in order, each with its claims and secret. -/
structure Outcome where
  response : Response
  minted : List (JWTClaims × GoString)
  deriving DecidableEq, Repr

/-- Embedding of `JwtAuthController.ObtainJwtToken`; `now1` and `now2` are the
two readings of `time.Now()`, in the order the source takes them. -/
def ObtainJwtToken (env : Env) (co : Collaborators) (now1 now2 : Time) : Outcome :=
  let (reqData, err) := co.ShouldBindJSON
  match err with
  | some err =>
    let err := Error.Wrap .BadRequest err "Failed to bind request data".toList
    ⟨.HandleError err, []⟩
  | none =>
  match co.ValidateStruct reqData with
  | some validationErr =>
    let err := Error.Wrap .BadRequest validationErr "Validation error".toList
    let err := Error.SetCustomMessage err "Invalid input information".toList
    let err := Error.AddErrorContextBlock err (co.GenerateValidationResponse validationErr)
    ⟨.HandleError err, []⟩
  | none =>
  let (user, exits, err) := co.CheckUserWithPhone reqData.Phone
  match err with
  | some err => ⟨.HandleError err, []⟩
  | none =>
  if !exits then
    ⟨.ErrorJSON StatusBadRequest "Phone number or Password does not match".toList, []⟩
  else
  let isValidPassword := co.CompareHashAndPlainPassword user.Password reqData.Password
  if !isValidPassword then
    ⟨.ErrorJSON StatusBadRequest "Invalid user credentials".toList, []⟩
  else
  let accessClaims : JWTClaims :=
    { ExpiresAt := (now1.Add (wrapInt64 (Minute * env.JwtAccessTokenExpiresAt))).Unix
      Id := user.UserId }
  let (accessToken, tokenErr) := GenerateToken accessClaims env.JwtAccessSecret
  match tokenErr with
  | some tokenErr =>
    ⟨.ErrorJSON StatusInternalServerError tokenErr, [(accessClaims, env.JwtAccessSecret)]⟩
  | none =>
  let refreshClaims : JWTClaims :=
    { ExpiresAt := (now2.Add (wrapInt64 (Hour * env.JwtRefreshTokenExpiresAt))).Unix
      Id := user.UserId }
  let (refreshToken, refreshTokenErr) := GenerateToken refreshClaims env.JwtRefreshSecret
  match refreshTokenErr with
  | some refreshTokenErr =>
    ⟨.ErrorJSON StatusInternalServerError refreshTokenErr,
      [(accessClaims, env.JwtAccessSecret), (refreshClaims, env.JwtRefreshSecret)]⟩
  | none =>
  let data : List (GoString × Value) :=
    [ ("user".toList, .map user.ToMap),
      ("access_token".toList, .string accessToken),
      ("refresh_token".toList, .string refreshToken),
      ("access_expires_at".toList, .int64 accessClaims.ExpiresAt),
      ("refresh_expires_at".toList, .int64 refreshClaims.ExpiresAt) ]
  ⟨.SuccessJSON StatusOK data,
    [(accessClaims, env.JwtAccessSecret), (refreshClaims, env.JwtRefreshSecret)]⟩

/-- Embedding of `JwtAuthController.RefreshJwtToken`; `header` is the
`Authorization` header of the request, `now1` the clock reading of the library
inside `ParseToken` and `now2` the reading of `time.Now()` that follows. -/
def RefreshJwtToken (env : Env) (header : GoString) (now1 now2 : Time) : Outcome :=
  let (tokenString, err) := GetTokenFromHeader header
  match err with
  | some err =>
    let err := Error.Wrap .Unauthorized err "Something went wrong".toList
    ⟨.HandleError err, []⟩
  | none =>
  match ParseToken tokenString env.JwtRefreshSecret now1 with
  | .error parseErr =>
    let err := Error.Wrap .Unauthorized parseErr "Something went wrong".toList
    ⟨.HandleError err, []⟩
  | .ok parsedToken =>
  match VerifyToken parsedToken with
  | .error verifyErr =>
    let err := Error.Wrap .Unauthorized verifyErr "Something went wrong".toList
    ⟨.HandleError err, []⟩
  | .ok claims =>
  let accessClaims : JWTClaims :=
    { ExpiresAt := (now2.Add (wrapInt64 (Minute * env.JwtAccessTokenExpiresAt))).Unix
      Id := claims.Id }
  let (accessToken, tokenErr) := GenerateToken accessClaims env.JwtAccessSecret
  match tokenErr with
  | some tokenErr =>
    ⟨.ErrorJSON StatusInternalServerError tokenErr, [(accessClaims, env.JwtAccessSecret)]⟩
  | none =>
  let data : List (GoString × Value) :=
    [ ("access_token".toList, .string accessToken),
      ("expires_at".toList, .int64 accessClaims.ExpiresAt) ]
  ⟨.SuccessJSON StatusOK data, [(accessClaims, env.JwtAccessSecret)]⟩

/-! ## Notions used to state the properties -/

/-- The credential as the specification words it: the text of the header that
follows the first `Bearer` marker, trimmed. -/
def credentialAfterMarker (header : GoString) : GoString :=
  match Index header "Bearer".toList with
  | some i => TrimSpace (header.drop (i + "Bearer".toList.length))
  | none => []

/-- The value a response body holds under a key, if it is a success body that
has the key. -/
def Response.field (r : Response) (key : GoString) : Option Value :=
  match r with
  | .SuccessJSON _ data => (data.find? fun kv => kv.1 == key).map fun kv => kv.2
  | _ => none

/-- The keys of a response body. -/
def Response.keys (r : Response) : List GoString :=
  match r with
  | .SuccessJSON _ data => data.map fun kv => kv.1
  | _ => []

/-- A value that a Go `int64` can hold. -/
def isInt64 (v : Int) : Prop := -(2 : Int) ^ 63 ≤ v ∧ v < (2 : Int) ^ 63

instance (v : Int) : Decidable (isInt64 v) := by unfold isInt64; infer_instance

/-- The time claims of a claim set are values of type `int64`. -/
def JWTClaims.wellTyped (c : JWTClaims) : Prop :=
  isInt64 c.ExpiresAt ∧ isInt64 c.IssuedAt ∧ isInt64 c.NotBefore

instance (c : JWTClaims) : Decidable c.wellTyped := by unfold JWTClaims.wellTyped; infer_instance

/-- The text begins with a delimiter that ends a member of an object. -/
def isMemberEnd (rest : GoString) : Prop := rest.head? = some ',' ∨ rest.head? = some '}'

/-- A configuration used in examples: access tokens live 15 minutes, refresh
tokens 24 hours. -/
def sampleEnv : Env :=
  { JwtAccessSecret := "access-secret".toList
    JwtRefreshSecret := "refresh-secret".toList
    JwtAccessTokenExpiresAt := 15
    JwtRefreshTokenExpiresAt := 24 }

/-- A user used in examples. -/
def sampleUser : User :=
  { UserId := "7".toList, Password := "$2a$10$hash".toList, ToMap := [("id".toList, "7".toList)] }

/-- Collaborators used in examples: the request binds and validates, the lookup
finds `sampleUser` or not as `found` says, and the password matches or not as
`matches` says. -/
def sampleCollaborators (found pwMatches : Bool) : Collaborators :=
  { ShouldBindJSON := ({ Phone := "9800000000".toList, Password := "secret".toList }, none)
    ValidateStruct := fun _ => none
    GenerateValidationResponse := fun _ => []
    CheckUserWithPhone := fun _ => (if found then sampleUser else ⟨[], [], []⟩, found, none)
    CompareHashAndPlainPassword := fun _ _ => pwMatches }

/-- A refresh token used in examples: subject `7`, expiry at second 2000,
signed with the refresh secret of `sampleEnv`. -/
def sampleRefreshToken : GoString :=
  (GenerateToken { ExpiresAt := 2000, Id := "7".toList } sampleEnv.JwtRefreshSecret).1

/-! ## Facts about the model of package `strings` -/

theorem HasPrefix_append (p s : GoString) : HasPrefix (p ++ s) p = true := by
  induction p with
  | nil => cases s <;> rfl
  | cons c p ih => simp [HasPrefix, ih]

theorem Index_eq_zero_of_HasPrefix (s sep : GoString) (h : HasPrefix s sep = true) :
    Index s sep = some 0 := by
  cases s with
  | nil =>
    cases sep with
    | nil => rfl
    | cons d p => simp [HasPrefix] at h
  | cons c s => simp [Index, h]

theorem HasPrefix_drop_of_Index (sep : GoString) :
    ∀ (s : GoString) (i : Nat), Index s sep = some i → HasPrefix (s.drop i) sep = true := by
  intro s
  induction s with
  | nil =>
    intro i h
    cases sep with
    | nil => simp [HasPrefix]
    | cons d p => simp [Index] at h
  | cons c s ih =>
    intro i h
    by_cases hp : HasPrefix (c :: s) sep = true
    · simp [Index, hp] at h
      subst h
      simpa using hp
    · simp only [Index, hp, Bool.false_eq_true, if_false, Option.map_eq_some'] at h
      obtain ⟨j, hj, rfl⟩ := h
      simpa using ih j hj

theorem HasPrefix_false_before_Index (sep : GoString) :
    ∀ (s : GoString) (i : Nat), Index s sep = some i →
      ∀ j, j < i → HasPrefix (s.drop j) sep = false := by
  intro s
  induction s with
  | nil =>
    intro i h j hj
    cases sep with
    | nil =>
      simp only [Index, List.isEmpty_nil, if_true, Option.some.injEq] at h
      omega
    | cons d p => simp [Index] at h
  | cons c s ih =>
    intro i h j hj
    by_cases hp : HasPrefix (c :: s) sep = true
    · simp only [Index, hp, if_true, Option.some.injEq] at h
      omega
    · simp only [Index, hp, Bool.false_eq_true, if_false, Option.map_eq_some'] at h
      obtain ⟨k, hk, rfl⟩ := h
      cases j with
      | zero => simpa using hp
      | succ j => simpa using ih k hk j (by omega)

theorem Replace_first (header marker : GoString) (i : Nat) (hm : marker ≠ [])
    (h : Index header marker = some i) :
    Replace header marker [] 1 = header.take i ++ header.drop (i + marker.length) := by
  have hne : ¬ (marker = [] ∨ (1 : Int) = 0) := by
    intro h'
    rcases h' with h' | h'
    · exact hm h'
    · exact absurd h' (by decide)
  have hemp : marker.isEmpty = false := by
    cases marker with
    | nil => exact absurd rfl hm
    | cons d p => rfl
  have hcount : Count header marker =
      countFrom marker header.length (header.drop (i + marker.length)) + 1 := by
    simp [Count, hemp, countFrom, h]
  simp only [Replace, hne, if_false, hcount]
  have hk : (if (1 : Int) < 0 ∨
      ((countFrom marker header.length (List.drop (i + marker.length) header) + 1 : Nat) : Int) < 1
      then countFrom marker header.length (List.drop (i + marker.length) header) + 1
      else (1 : Int).toNat) = 1 := by
    rw [if_neg]
    · rfl
    · intro h'
      rcases h' with h' | h'
      · exact absurd h' (by decide)
      · omega
  simp [hk, replaceLoop, hemp, h]

theorem dropWhile_isSpace_of_head (t : GoString)
    (h : ∀ c, t.head? = some c → isSpace c = false) : t.dropWhile isSpace = t := by
  cases t with
  | nil => rfl
  | cons c t => simp [List.dropWhile, h c rfl]

theorem TrimSpace_eq_self (t : GoString) (h1 : ∀ c, t.head? = some c → isSpace c = false)
    (h2 : ∀ c, t.getLast? = some c → isSpace c = false) : TrimSpace t = t := by
  unfold TrimSpace
  rw [dropWhile_isSpace_of_head t h1, dropWhile_isSpace_of_head t.reverse, List.reverse_reverse]
  intro c hc
  apply h2
  simpa [List.head?_reverse] using hc

theorem TrimSpace_append_of_all_space (pre post : GoString) (h : pre.all isSpace = true) :
    TrimSpace (pre ++ post) = TrimSpace post := by
  induction pre with
  | nil => rfl
  | cons c pre ih =>
    simp only [List.all_cons, Bool.and_eq_true] at h
    have : TrimSpace (c :: (pre ++ post)) = TrimSpace (pre ++ post) := by
      simp [TrimSpace, List.dropWhile, h.1]
    simpa [this] using ih h.2

theorem Contains_append_of_HasPrefix (a s p : GoString) (h : HasPrefix s p = true) :
    Contains (a ++ s) p = true := by
  unfold Contains
  induction a with
  | nil =>
    cases s with
    | nil =>
      cases p with
      | nil => rfl
      | cons d p => simp [HasPrefix] at h
    | cons c s => simp [Index, h]
  | cons c a ih =>
    simp only [List.cons_append, Index]
    split
    · rfl
    · cases hI : Index (a ++ s) p with
      | none => rw [hI] at ih; exact absurd ih (by simp)
      | some i => rfl

theorem Contains_expired (x : GoString) :
    Contains ("token is expired by ".toList ++ x) "expired".toList = true := by
  have e : "token is expired by ".toList ++ x =
      "token is ".toList ++ ("expired".toList ++ (" by ".toList ++ x)) := by
    simp
  rw [e]
  exact Contains_append_of_HasPrefix _ _ _ (HasPrefix_append _ _)

theorem Split_of_not_mem (sep : Char) (s : GoString) (h : sep ∉ s) : Split s sep = [s] := by
  induction s with
  | nil => rfl
  | cons c s ih =>
    simp only [List.mem_cons, not_or] at h
    have hc : c ≠ sep := fun e => h.1 e.symm
    simp [Split, hc, ih h.2]

theorem Split_append (sep : Char) (a b : GoString) (h : sep ∉ a) :
    Split (a ++ sep :: b) sep = a :: Split b sep := by
  induction a with
  | nil => simp [Split]
  | cons c a ih =>
    simp only [List.mem_cons, not_or] at h
    have hc : c ≠ sep := fun e => h.1 e.symm
    simp [Split, hc, ih h.2]

theorem Split_three (a b c : GoString) (ha : '.' ∉ a) (hb : '.' ∉ b) (hc : '.' ∉ c) :
    Split (a ++ '.' :: b ++ '.' :: c) '.' = [a, b, c] := by
  have e : a ++ '.' :: b ++ '.' :: c = a ++ '.' :: (b ++ '.' :: c) := by simp
  rw [e, Split_append _ _ _ ha, Split_append _ _ _ hb, Split_of_not_mem _ _ hc]

/-! ## Base64: decoding what was encoded -/

theorem b64Value_b64Char : ∀ n, n < 64 → b64Value (b64Char n) = some n := by decide

theorem b64Char_not_skipped : ∀ n, n < 64 →
    (b64Char n == '\r' || b64Char n == '\n') = false ∧ b64Char n ≠ '.' ∧
      isSpace (b64Char n) = false := by
  decide

/-- The characters of the URL alphabet. -/
theorem EncodeSegment_chars (bs : List Byte) :
    ∀ c ∈ EncodeSegment bs, ∃ n, n < 64 ∧ c = b64Char n := by
  induction bs using EncodeSegment.induct with
  | case1 a b c rest ih =>
    intro x hx
    simp only [EncodeSegment, List.mem_cons] at hx
    have ha := a.isLt
    have hb := b.isLt
    have hc := c.isLt
    rcases hx with rfl | rfl | rfl | rfl | hx
    · exact ⟨_, by omega, rfl⟩
    · exact ⟨_, by omega, rfl⟩
    · exact ⟨_, by omega, rfl⟩
    · exact ⟨_, by omega, rfl⟩
    · exact ih x hx
  | case2 a b =>
    intro x hx
    simp only [EncodeSegment, List.mem_cons, List.mem_singleton, List.not_mem_nil, or_false] at hx
    have ha := a.isLt
    have hb := b.isLt
    rcases hx with rfl | rfl | rfl
    · exact ⟨_, by omega, rfl⟩
    · exact ⟨_, by omega, rfl⟩
    · exact ⟨_, by omega, rfl⟩
  | case3 a =>
    intro x hx
    simp only [EncodeSegment, List.mem_cons, List.mem_singleton, List.not_mem_nil, or_false] at hx
    have ha := a.isLt
    rcases hx with rfl | rfl
    · exact ⟨_, by omega, rfl⟩
    · exact ⟨_, by omega, rfl⟩
  | case4 =>
    intro x hx
    simp [EncodeSegment] at hx

theorem EncodeSegment_no_dot (bs : List Byte) : '.' ∉ EncodeSegment bs := by
  intro h
  obtain ⟨n, hn, hc⟩ := EncodeSegment_chars bs _ h
  exact (b64Char_not_skipped n hn).2.1 hc.symm

theorem EncodeSegment_no_space (bs : List Byte) : ∀ c ∈ EncodeSegment bs, isSpace c = false := by
  intro c h
  obtain ⟨n, hn, rfl⟩ := EncodeSegment_chars bs _ h
  exact (b64Char_not_skipped n hn).2.2

theorem byte_val (n : Nat) : (byte n).val = n % 256 := rfl

theorem byte_eq (a : Byte) (n : Nat) (h : n = a.val) : byte n = a := by
  apply Fin.ext
  rw [byte_val, h]
  exact Nat.mod_eq_of_lt a.isLt

theorem decodeQuanta_EncodeSegment (bs : List Byte) :
    decodeQuanta (EncodeSegment bs) = some bs := by
  induction bs using EncodeSegment.induct with
  | case1 a b c rest ih =>
    have ha := a.isLt
    have hb := b.isLt
    have hc := c.isLt
    simp only [EncodeSegment, decodeQuanta]
    rw [b64Value_b64Char _ (by omega), b64Value_b64Char _ (by omega),
      b64Value_b64Char _ (by omega), b64Value_b64Char _ (by omega), ih]
    simp only [Option.bind_eq_bind, Option.some_bind, Option.pure_def]
    rw [byte_eq a _ (by omega), byte_eq b _ (by omega), byte_eq c _ (by omega)]
  | case2 a b =>
    have ha := a.isLt
    have hb := b.isLt
    simp only [EncodeSegment, decodeQuanta]
    rw [b64Value_b64Char _ (by omega), b64Value_b64Char _ (by omega),
      b64Value_b64Char _ (by omega)]
    simp only [Option.bind_eq_bind, Option.some_bind, Option.pure_def]
    rw [byte_eq a _ (by omega), byte_eq b _ (by omega)]
  | case3 a =>
    have ha := a.isLt
    simp only [EncodeSegment, decodeQuanta]
    rw [b64Value_b64Char _ (by omega), b64Value_b64Char _ (by omega)]
    simp only [Option.bind_eq_bind, Option.some_bind, Option.pure_def]
    rw [byte_eq a _ (by omega)]
  | case4 => rfl

theorem DecodeSegment_EncodeSegment (bs : List Byte) :
    DecodeSegment (EncodeSegment bs) = some bs := by
  unfold DecodeSegment
  have hf : (EncodeSegment bs).filter (fun c => !(c == '\r' || c == '\n')) = EncodeSegment bs := by
    apply List.filter_eq_self.mpr
    intro c hc
    obtain ⟨n, hn, rfl⟩ := EncodeSegment_chars bs _ hc
    rw [(b64Char_not_skipped n hn).1]
    rfl
  rw [hf]
  exact decodeQuanta_EncodeSegment bs

/-! ## UTF-8: decoding what was encoded -/

theorem utf8EncodeChar_ne_nil (c : Char) : utf8EncodeChar c ≠ [] := by
  unfold utf8EncodeChar
  simp only
  split_ifs <;> simp

theorem Char_ofNat_toNat (c : Char) (n : Nat) (h : n = c.toNat) : Char.ofNat n = c := by
  subst h
  exact Char.ofNat_toNat c

theorem Char_toNat_valid (c : Char) : c.toNat < 0xD800 ∨ (0xDFFF < c.toNat ∧ c.toNat < 0x110000) := by
  have h := c.valid
  simpa [Char.toNat, UInt32.isValidChar, Nat.isValidChar, UInt32.toNat] using h

theorem decodeRune_utf8EncodeChar (c : Char) (rest : List Byte) :
    decodeRune (utf8EncodeChar c ++ rest) = (c, (utf8EncodeChar c).length) := by
  have hv := Char_toNat_valid c
  unfold utf8EncodeChar
  simp only
  by_cases h1 : c.toNat < 0x80
  · simp only [h1, if_true, List.cons_append, List.nil_append, decodeRune, byte_val]
    have e : c.toNat % 256 = c.toNat := by omega
    simp only [e, h1, if_true, List.length_singleton]
    rw [Char_ofNat_toNat c _ rfl]
  · by_cases h2 : c.toNat < 0x800
    · simp only [h1, h2, if_true, if_false, List.cons_append, List.nil_append, decodeRune, byte_val]
      have e0 : (0xC0 + c.toNat / 64) % 256 = 0xC0 + c.toNat / 64 := by omega
      have e1 : (0x80 + c.toNat % 64) % 256 = 0x80 + c.toNat % 64 := by omega
      simp only [e0, e1]
      have hc : Char.ofNat ((0xC0 + c.toNat / 64) % 32 * 64 + (0x80 + c.toNat % 64) % 64) = c :=
        Char_ofNat_toNat c _ (by omega)
      have f1 : ¬ (0xC0 + c.toNat / 64 < 0x80) := by omega
      have f2 : ¬ (0xC0 + c.toNat / 64 < 0xC2 ∨ 0xF4 < 0xC0 + c.toNat / 64) := by omega
      have f3 : ¬ (0xC0 + c.toNat / 64 = 0xE0) := by omega
      have f4 : ¬ (0xC0 + c.toNat / 64 = 0xF0) := by omega
      have f5 : ¬ (0xC0 + c.toNat / 64 = 0xED) := by omega
      have f6 : ¬ (0xC0 + c.toNat / 64 = 0xF4) := by omega
      have f7 : ¬ (0x80 + c.toNat % 64 < 0x80 ∨ 0xBF < 0x80 + c.toNat % 64) := by omega
      have f8 : 0xC0 + c.toNat / 64 < 0xE0 := by omega
      simp only [f1, f2, f3, f4, f5, f6, f7, f8, if_true, if_false, hc, List.length_cons,
        List.length_nil]
    · by_cases h3 : c.toNat < 0x10000
      · simp only [h1, h2, h3, if_true, if_false, List.cons_append, List.nil_append, decodeRune,
          byte_val]
        have e0 : (0xE0 + c.toNat / 4096) % 256 = 0xE0 + c.toNat / 4096 := by omega
        have e1 : (0x80 + c.toNat / 64 % 64) % 256 = 0x80 + c.toNat / 64 % 64 := by omega
        have e2 : (0x80 + c.toNat % 64) % 256 = 0x80 + c.toNat % 64 := by omega
        simp only [e0, e1, e2]
        have hc : Char.ofNat ((0xE0 + c.toNat / 4096) % 16 * 4096 +
            (0x80 + c.toNat / 64 % 64) % 64 * 64 + (0x80 + c.toNat % 64) % 64) = c :=
          Char_ofNat_toNat c _ (by omega)
        have f1 : ¬ (0xE0 + c.toNat / 4096 < 0x80) := by omega
        have f2 : ¬ (0xE0 + c.toNat / 4096 < 0xC2 ∨ 0xF4 < 0xE0 + c.toNat / 4096) := by omega
        have f4 : ¬ (0xE0 + c.toNat / 4096 = 0xF0) := by omega
        have f6 : ¬ (0xE0 + c.toNat / 4096 = 0xF4) := by omega
        have f7 : ¬ (0x80 + c.toNat % 64 < 0x80 ∨ 0xBF < 0x80 + c.toNat % 64) := by omega
        have f8 : ¬ (0xE0 + c.toNat / 4096 < 0xE0) := by omega
        have f9 : 0xE0 + c.toNat / 4096 < 0xF0 := by omega
        have g : ¬ (0x80 + c.toNat / 64 % 64 <
              (if 0xE0 + c.toNat / 4096 = 0xE0 then 0xA0 else 0x80) ∨
            (if 0xE0 + c.toNat / 4096 = 0xED then 0x9F else 0xBF) <
              0x80 + c.toNat / 64 % 64) := by
          split_ifs <;> omega
        simp only [f1, f2, f4, f6, f7, f8, f9, g, if_true, if_false, hc, List.length_cons,
          List.length_nil]
      · simp only [h1, h2, h3, if_false, List.cons_append, List.nil_append, decodeRune, byte_val]
        have e0 : (0xF0 + c.toNat / 262144) % 256 = 0xF0 + c.toNat / 262144 := by omega
        have e1 : (0x80 + c.toNat / 4096 % 64) % 256 = 0x80 + c.toNat / 4096 % 64 := by omega
        have e2 : (0x80 + c.toNat / 64 % 64) % 256 = 0x80 + c.toNat / 64 % 64 := by omega
        have e3 : (0x80 + c.toNat % 64) % 256 = 0x80 + c.toNat % 64 := by omega
        simp only [e0, e1, e2, e3]
        have hc : Char.ofNat ((0xF0 + c.toNat / 262144) % 8 * 262144 +
            (0x80 + c.toNat / 4096 % 64) % 64 * 4096 + (0x80 + c.toNat / 64 % 64) % 64 * 64 +
            (0x80 + c.toNat % 64) % 64) = c :=
          Char_ofNat_toNat c _ (by omega)
        have f1 : ¬ (0xF0 + c.toNat / 262144 < 0x80) := by omega
        have f2 : ¬ (0xF0 + c.toNat / 262144 < 0xC2 ∨ 0xF4 < 0xF0 + c.toNat / 262144) := by omega
        have f3 : ¬ (0xF0 + c.toNat / 262144 = 0xE0) := by omega
        have f5 : ¬ (0xF0 + c.toNat / 262144 = 0xED) := by omega
        have f7 : ¬ (0x80 + c.toNat % 64 < 0x80 ∨ 0xBF < 0x80 + c.toNat % 64) := by omega
        have f7b : ¬ (0x80 + c.toNat / 64 % 64 < 0x80 ∨ 0xBF < 0x80 + c.toNat / 64 % 64) := by
          omega
        have f8 : ¬ (0xF0 + c.toNat / 262144 < 0xE0) := by omega
        have f9 : ¬ (0xF0 + c.toNat / 262144 < 0xF0) := by omega
        have g : ¬ (0x80 + c.toNat / 4096 % 64 <
              (if 0xF0 + c.toNat / 262144 = 0xF0 then 0x90 else 0x80) ∨
            (if 0xF0 + c.toNat / 262144 = 0xF4 then 0x8F else 0xBF) <
              0x80 + c.toNat / 4096 % 64) := by
          split_ifs <;> omega
        simp only [f1, f2, f3, f5, f7, f7b, f8, f9, g, if_true, if_false, hc, List.length_cons,
          List.length_nil]

theorem utf8DecodeAux_utf8Encode (s : GoString) :
    ∀ fuel, s.length ≤ fuel → utf8DecodeAux fuel (utf8Encode s) = s := by
  induction s with
  | nil =>
    intro fuel _
    cases fuel <;> simp [utf8DecodeAux, utf8Encode]
  | cons c s ih =>
    intro fuel hf
    cases fuel with
    | zero => simp at hf
    | succ fuel =>
      have hne := utf8EncodeChar_ne_nil c
      have e : utf8Encode (c :: s) = utf8EncodeChar c ++ utf8Encode s := by
        simp [utf8Encode]
      have hemp : (utf8EncodeChar c ++ utf8Encode s).isEmpty = false := by
        cases h : utf8EncodeChar c with
        | nil => exact absurd h hne
        | cons b bs => rfl
      rw [e, utf8DecodeAux, hemp]
      simp only [Bool.false_eq_true, if_false, decodeRune_utf8EncodeChar, List.drop_left]
      rw [ih fuel (by simpa using hf)]

theorem length_le_utf8Encode (s : GoString) : s.length ≤ (utf8Encode s).length := by
  induction s with
  | nil => simp [utf8Encode]
  | cons c s ih =>
    have e : utf8Encode (c :: s) = utf8EncodeChar c ++ utf8Encode s := by
      simp [utf8Encode]
    have hne := utf8EncodeChar_ne_nil c
    have : 1 ≤ (utf8EncodeChar c).length := by
      cases h : utf8EncodeChar c with
      | nil => exact absurd h hne
      | cons b bs => simp
    rw [e, List.length_append, List.length_cons]
    omega

theorem utf8Decode_utf8Encode (s : GoString) : utf8Decode (utf8Encode s) = s :=
  utf8DecodeAux_utf8Encode s _ (length_le_utf8Encode s)

/-! ## Decimal numbers: parsing what was formatted -/

theorem digitChar_toNat (d : Nat) : (digitChar d).toNat = 48 + d % 10 := by
  have h : ∀ k, k < 10 → (Char.ofNat (48 + k)).toNat = 48 + k := by decide
  exact h (d % 10) (Nat.mod_lt _ (by decide))

theorem isDigit_digitChar (d : Nat) : isDigit (digitChar d) = true := by
  have h := digitChar_toNat d
  have h2 : d % 10 < 10 := Nat.mod_lt _ (by decide)
  simp only [isDigit, h, Bool.and_eq_true, decide_eq_true_eq]
  omega

theorem digitsValue_append_singleton (ds : GoString) (c : Char) :
    digitsValue (ds ++ [c]) = digitsValue ds * 10 + (c.toNat - 48) := by
  simp [digitsValue, List.foldl_append]

/-- What `formatNatAux` writes in front of the accumulator: a non-empty run of
digits with the value `n` that starts with `0` only for `n = 0`. -/
theorem formatNatAux_spec (fuel : Nat) : ∀ (n : Nat) (acc : GoString), n < fuel →
    ∃ ds : GoString, formatNatAux fuel n acc = ds ++ acc ∧ ds ≠ [] ∧
      (∀ c ∈ ds, isDigit c = true) ∧ digitsValue ds = n ∧
      (ds.head? = some '0' → n = 0) := by
  induction fuel with
  | zero => intro n acc h; exact absurd h (Nat.not_lt_zero _)
  | succ fuel ih =>
    intro n acc hn
    by_cases h10 : n < 10
    · refine ⟨[digitChar n], ?_, by simp, ?_, ?_, ?_⟩
      · simp [formatNatAux, h10]
      · intro c hc
        simp only [List.mem_singleton] at hc
        subst hc
        exact isDigit_digitChar n
      · simp only [digitsValue, List.foldl_cons, List.foldl_nil, digitChar_toNat]
        omega
      · intro h
        simp only [List.head?_cons, Option.some.injEq] at h
        have h2 := digitChar_toNat n
        rw [h] at h2
        have h3 : ('0' : Char).toNat = 48 := by decide
        omega
    · obtain ⟨ds, h1, h2, h3, h4, h5⟩ := ih (n / 10) (digitChar n :: acc) (by omega)
      refine ⟨ds ++ [digitChar n], ?_, by simp, ?_, ?_, ?_⟩
      · simp [formatNatAux, h10, h1]
      · intro c hc
        simp only [List.mem_append, List.mem_singleton] at hc
        rcases hc with hc | hc
        · exact h3 c hc
        · subst hc
          exact isDigit_digitChar n
      · rw [digitsValue_append_singleton, h4, digitChar_toNat]
        omega
      · intro h
        have : ds.head? = some '0' := by
          cases ds with
          | nil => exact absurd rfl h2
          | cons d ds => simpa using h
        have := h5 this
        omega

theorem formatNat_spec (n : Nat) :
    formatNat n ≠ [] ∧ (∀ c ∈ formatNat n, isDigit c = true) ∧ digitsValue (formatNat n) = n ∧
      ((formatNat n).head? = some '0' → n = 0) := by
  obtain ⟨ds, h1, h2, h3, h4, h5⟩ := formatNatAux_spec (n + 1) n [] (by omega)
  have e : formatNat n = ds := by simp [formatNat, h1]
  rw [e]
  exact ⟨h2, h3, h4, h5⟩

theorem formatNat_zero : formatNat 0 = ['0'] := by decide

theorem isDigit_head_ne (s : GoString) (c : Char) (hs : ∀ x ∈ s, isDigit x = true)
    (hc : isDigit c = false) : s.head? ≠ some c := by
  cases s with
  | nil => simp
  | cons d s =>
    intro h
    simp only [List.head?_cons, Option.some.injEq] at h
    subst h
    have := hs d (List.mem_cons_self _ _)
    rw [hc] at this
    exact absurd this (by decide)

theorem ParseInt64_FormatInt (i : Int) (h : isInt64 i) : ParseInt64 (FormatInt i) = some i := by
  obtain ⟨hne, hdig, hval, _⟩ := formatNat_spec i.natAbs
  have hall : (formatNat i.natAbs).all isDigit = true := by
    simpa [List.all_eq_true] using hdig
  have hemp : (formatNat i.natAbs).isEmpty = false := by
    cases hf : formatNat i.natAbs with
    | nil => exact absurd hf hne
    | cons d ds => rfl
  unfold isInt64 at h
  by_cases hneg : i < 0
  · have e : FormatInt i = '-' :: formatNat i.natAbs := by simp [FormatInt, hneg]
    rw [e]
    simp only [ParseInt64, List.head?_cons, true_or, if_true, List.drop_succ_cons, List.drop_zero,
      hemp, hall, Bool.false_eq_true, not_true_eq_false, or_self, if_false, hval]
    rw [if_pos (by omega)]
    congr 1
    omega
  · have e : FormatInt i = formatNat i.natAbs := by simp [FormatInt, hneg]
    rw [e]
    have h1 : (formatNat i.natAbs).head? ≠ some '-' := isDigit_head_ne _ _ hdig (by decide)
    have h2 : (formatNat i.natAbs).head? ≠ some '+' := isDigit_head_ne _ _ hdig (by decide)
    simp only [ParseInt64, h1, h2, or_self, if_false, hemp, hall, Bool.false_eq_true,
      not_true_eq_false, hval]
    rw [if_pos (by omega)]
    congr 1
    omega

theorem takeWhile_digits_append (ds rest : GoString) (hds : ∀ c ∈ ds, isDigit c = true)
    (hrest : ∀ c, rest.head? = some c → isDigit c = false) :
    (ds ++ rest).takeWhile isDigit = ds ∧ (ds ++ rest).dropWhile isDigit = rest := by
  induction ds with
  | nil =>
    cases rest with
    | nil => simp
    | cons c rest => simp [List.takeWhile, List.dropWhile, hrest c rfl]
  | cons d ds ih =>
    have hd := hds d (List.mem_cons_self _ _)
    have := ih (fun c hc => hds c (List.mem_cons_of_mem _ hc))
    simp [List.takeWhile, List.dropWhile, hd, this.1, this.2]

theorem digitRun_formatNat (n : Nat) (rest : GoString)
    (hrest : ∀ c, rest.head? = some c → isDigit c = false) :
    digitRun (formatNat n ++ rest) = some (formatNat n, rest) := by
  obtain ⟨hne, hdig, _, _⟩ := formatNat_spec n
  have := takeWhile_digits_append _ rest hdig hrest
  have hemp : (formatNat n).isEmpty = false := by
    cases hf : formatNat n with
    | nil => exact absurd hf hne
    | cons d ds => rfl
  simp [digitRun, this.1, this.2, hemp]

theorem parseNumber_formatNat (n : Nat) (rest : GoString) (hrest : isMemberEnd rest) :
    parseNumber (formatNat n ++ rest) = some (formatNat n, rest) ∧
    parseNumber ('-' :: formatNat n ++ rest) = some ('-' :: formatNat n, rest) := by
  obtain ⟨hne, hdig, _, hzero⟩ := formatNat_spec n
  have hnd : ∀ c, rest.head? = some c → isDigit c = false := by
    intro c hc
    rcases hrest with h | h <;> (rw [h] at hc; cases hc; decide)
  have hdot : rest.head? ≠ some '.' := by
    rcases hrest with h | h <;> (rw [h]; decide)
  have he : ¬ (rest.head? = some 'e' ∨ rest.head? = some 'E') := by
    rcases hrest with h | h <;> (rw [h]; decide)
  have hminus : (formatNat n ++ rest).head? ≠ some '-' := by
    cases hf : formatNat n with
    | nil => exact absurd hf hne
    | cons d ds =>
      have := hdig d (by rw [hf]; exact List.mem_cons_self _ _)
      intro h
      simp only [List.cons_append, List.head?_cons, Option.some.injEq] at h
      subst h
      exact absurd this (by decide)
  have hint : parseIntPart (formatNat n ++ rest) = some (formatNat n, rest) := by
    unfold parseIntPart
    by_cases h0 : (formatNat n ++ rest).head? = some '0'
    · have hn : n = 0 := by
        apply hzero
        cases hf : formatNat n with
        | nil => exact absurd hf hne
        | cons d ds => rw [hf] at h0; simpa using h0
      subst hn
      rw [if_pos h0, formatNat_zero]
      rfl
    · rw [if_neg h0, digitRun_formatNat n rest hnd]
  have hfrac : parseFrac rest = some ([], rest) := by
    unfold parseFrac
    rw [if_neg hdot]
  have hexp : parseExp rest = some ([], rest) := by
    unfold parseExp
    rw [if_neg he]
  constructor
  · have hs : parseSign (formatNat n ++ rest) = ([], formatNat n ++ rest) := by
      unfold parseSign
      rw [if_neg hminus]
    unfold parseNumber
    rw [hs]
    simp only [hint, Option.some_bind, hfrac, hexp, List.nil_append, List.append_nil]
  · have hs : parseSign ('-' :: formatNat n ++ rest) = (['-'], formatNat n ++ rest) := by
      unfold parseSign
      simp
    unfold parseNumber
    rw [hs]
    simp only [hint, Option.some_bind, hfrac, hexp, List.append_nil, List.singleton_append]

theorem parseNumber_FormatInt (i : Int) (rest : GoString) (hrest : isMemberEnd rest) :
    parseNumber (FormatInt i ++ rest) = some (FormatInt i, rest) := by
  have h := parseNumber_formatNat i.natAbs rest hrest
  by_cases hneg : i < 0
  · simpa [FormatInt, hneg] using h.2
  · simpa [FormatInt, hneg] using h.1

/-! ## JSON strings: reading what the encoder wrote -/

theorem hexValue_hexDigit (d : Nat) : hexValue (hexDigit d) = some (d % 16) := by
  have h : ∀ k, k < 16 → hexValue (hexDigit k) = some k := by decide
  have e : hexDigit d = hexDigit (d % 16) := by simp [hexDigit, Nat.mod_mod]
  rw [e]
  exact h (d % 16) (Nat.mod_lt _ (by decide))

theorem getu4_escape (n : Nat) (hn : n < 65536) (tail : GoString) :
    getu4 (hexDigit (n / 4096) :: hexDigit (n / 256) :: hexDigit (n / 16) :: hexDigit n :: tail) =
      some (n, tail) := by
  simp only [getu4, hexValue_hexDigit, Option.bind_eq_bind, Option.some_bind, Option.pure_def]
  congr 2
  omega

/-- Reading back what the encoder writes for one code point. -/
theorem parseStringBody_escapeChar (c : Char) (tail : GoString) (fuel : Nat) :
    parseStringBody (fuel + 1) (escapeChar c ++ tail) =
      (parseStringBody fuel tail).map fun r => (c :: r.1, r.2) := by
  have hq : ('"' : Char).toNat = 34 := by decide
  have hb : ('\\' : Char).toNat = 92 := by decide
  unfold escapeChar
  simp only
  by_cases h1 : c = '"' ∨ c = '\\'
  · rw [if_pos h1]
    rcases h1 with rfl | rfl
    · simp [parseStringBody]
    · simp [parseStringBody]
  · rw [if_neg h1]
    have hcq : c ≠ '"' := fun h => h1 (Or.inl h)
    have hcb : c ≠ '\\' := fun h => h1 (Or.inr h)
    by_cases h2 : c.toNat = 0x08
    · rw [if_pos h2]
      have : c = Char.ofNat 0x08 := (Char_ofNat_toNat c _ h2.symm).symm
      subst this
      simp [parseStringBody]
    · rw [if_neg h2]
      by_cases h3 : c.toNat = 0x0C
      · rw [if_pos h3]
        have : c = Char.ofNat 0x0C := (Char_ofNat_toNat c _ h3.symm).symm
        subst this
        simp [parseStringBody]
      · rw [if_neg h3]
        by_cases h4 : c.toNat = 0x0A
        · rw [if_pos h4]
          have : c = Char.ofNat 0x0A := (Char_ofNat_toNat c _ h4.symm).symm
          subst this
          simp [parseStringBody]
        · rw [if_neg h4]
          by_cases h5 : c.toNat = 0x0D
          · rw [if_pos h5]
            have : c = Char.ofNat 0x0D := (Char_ofNat_toNat c _ h5.symm).symm
            subst this
            simp [parseStringBody]
          · rw [if_neg h5]
            by_cases h6 : c.toNat = 0x09
            · rw [if_pos h6]
              have : c = Char.ofNat 0x09 := (Char_ofNat_toNat c _ h6.symm).symm
              subst this
              simp [parseStringBody]
            · rw [if_neg h6]
              by_cases h7 : c.toNat < 0x20 ∨ c = '<' ∨ c = '>' ∨ c = '&' ∨ c.toNat = 0x2028 ∨
                  c.toNat = 0x2029
              · rw [if_pos h7]
                have hn : c.toNat < 0x20 ∨ c.toNat = 60 ∨ c.toNat = 62 ∨ c.toNat = 38 ∨
                    c.toNat = 0x2028 ∨ c.toNat = 0x2029 := by
                  rcases h7 with h | rfl | rfl | rfl | h | h
                  · exact Or.inl h
                  · exact Or.inr (Or.inl (by decide))
                  · exact Or.inr (Or.inr (Or.inl (by decide)))
                  · exact Or.inr (Or.inr (Or.inr (Or.inl (by decide))))
                  · exact Or.inr (Or.inr (Or.inr (Or.inr (Or.inl h))))
                  · exact Or.inr (Or.inr (Or.inr (Or.inr (Or.inr h))))
                have hlt : c.toNat < 65536 := by omega
                have hns : ¬ (0xD800 ≤ c.toNat ∧ c.toNat < 0xE000) := by omega
                have e : escapeU c.toNat ++ tail = '\\' :: 'u' :: hexDigit (c.toNat / 4096) ::
                    hexDigit (c.toNat / 256) :: hexDigit (c.toNat / 16) :: hexDigit c.toNat ::
                    tail := rfl
                rw [e]
                simp [parseStringBody, getu4_escape _ hlt, hns]
              · rw [if_neg h7]
                have hge : ¬ c.toNat < 0x20 := fun h => h7 (Or.inl h)
                show parseStringBody (fuel + 1) (c :: tail) = _
                simp only [parseStringBody, hcq, hcb, if_false, hge]

theorem flatMap_escapeChar_cons (c : Char) (s : GoString) :
    (c :: s).flatMap escapeChar = escapeChar c ++ s.flatMap escapeChar := by
  simp [List.flatMap]

theorem parseStringBody_escaped (s : GoString) :
    ∀ (fuel : Nat) (rest : GoString), s.length + 1 ≤ fuel →
      parseStringBody fuel (s.flatMap escapeChar ++ '"' :: rest) = some (s, rest) := by
  induction s with
  | nil =>
    intro fuel rest hf
    cases fuel with
    | zero => omega
    | succ fuel => simp [parseStringBody]
  | cons c s ih =>
    intro fuel rest hf
    cases fuel with
    | zero => omega
    | succ fuel =>
      rw [flatMap_escapeChar_cons, List.append_assoc, parseStringBody_escapeChar,
        ih fuel rest (by simpa using hf)]
      rfl

theorem length_le_flatMap_escapeChar (s : GoString) :
    s.length ≤ (s.flatMap escapeChar).length := by
  induction s with
  | nil => simp
  | cons c s ih =>
    rw [flatMap_escapeChar_cons, List.length_append, List.length_cons]
    have : 1 ≤ (escapeChar c).length := by
      unfold escapeChar
      simp only
      split_ifs <;> simp [escapeU]
    omega

/-! ## JSON objects: reading what the encoder wrote -/

theorem skipSpace_cons (c : Char) (s : GoString) (h : isJsonSpace c = false) :
    skipSpace (c :: s) = c :: s := by
  simp [skipSpace, List.dropWhile, h]

theorem number_start (c : Char) (h : c = '-' ∨ isDigit c = true) :
    c ≠ '{' ∧ c ≠ '[' ∧ c ≠ '"' ∧ c ≠ 't' ∧ c ≠ 'f' ∧ c ≠ 'n' ∧ isJsonSpace c = false := by
  rcases h with rfl | h
  · decide
  · refine ⟨?_, ?_, ?_, ?_, ?_, ?_, ?_⟩
    · rintro rfl; exact absurd h (by decide)
    · rintro rfl; exact absurd h (by decide)
    · rintro rfl; exact absurd h (by decide)
    · rintro rfl; exact absurd h (by decide)
    · rintro rfl; exact absurd h (by decide)
    · rintro rfl; exact absurd h (by decide)
    · cases hs : isJsonSpace c with
      | false => rfl
      | true =>
        simp only [isJsonSpace, Bool.or_eq_true, decide_eq_true_eq] at hs
        rcases hs with ((rfl | rfl) | rfl) | rfl <;> exact absurd h (by decide)

theorem FormatInt_head (i : Int) :
    ∃ c t, FormatInt i = c :: t ∧ (c = '-' ∨ isDigit c = true) := by
  obtain ⟨hne, hdig, _, _⟩ := formatNat_spec i.natAbs
  by_cases hneg : i < 0
  · exact ⟨'-', formatNat i.natAbs, by simp [FormatInt, hneg], Or.inl rfl⟩
  · cases hf : formatNat i.natAbs with
    | nil => exact absurd hf hne
    | cons d ds =>
      refine ⟨d, ds, by simp [FormatInt, hneg, hf], Or.inr ?_⟩
      exact hdig d (by rw [hf]; exact List.mem_cons_self _ _)

/-- Reading back the value of a member, up to the delimiter that follows. -/
theorem parseValue_marshal (v : FieldValue) (fuel depth : Nat) (rest : GoString)
    (hrest : isMemberEnd rest) :
    parseValue (fuel + 1) depth (skipSpace (v.marshal ++ rest)) = some (v.toJson, rest) := by
  cases v with
  | string s =>
    have e : (FieldValue.string s).marshal ++ rest =
        '"' :: (s.flatMap escapeChar ++ '"' :: rest) := by
      simp [FieldValue.marshal, quote]
    rw [e, skipSpace_cons _ _ (by decide)]
    simp only [parseValue]
    rw [if_pos trivial,
      parseStringBody_escaped s _ rest (by
        have := length_le_flatMap_escapeChar s
        simp only [List.length_append, List.length_cons]
        omega)]
    rfl
  | int64 i =>
    obtain ⟨c, t, hct, hc⟩ := FormatInt_head i
    obtain ⟨n1, n2, n3, n4, n5, n6, n7⟩ := number_start c hc
    have hp := parseNumber_FormatInt i rest hrest
    have e : (FieldValue.int64 i).marshal ++ rest = c :: (t ++ rest) := by
      simp [FieldValue.marshal, hct]
    rw [hct] at hp
    rw [e, skipSpace_cons _ _ n7]
    simp only [parseValue, n1, n2, n3, n4, n5, n6, if_false]
    rw [show c :: (t ++ rest) = c :: t ++ rest from rfl, hp]
    simp [FieldValue.toJson, hct]

theorem quote_eq (k : GoString) : quote k = '"' :: (k.flatMap escapeChar ++ ['"']) := rfl

theorem marshalMembers_cons_cons (kv kv2 : GoString × FieldValue)
    (kvs : List (GoString × FieldValue)) :
    marshalMembers (kv :: kv2 :: kvs) =
      quote kv.1 ++ ':' :: kv.2.marshal ++ ',' :: marshalMembers (kv2 :: kvs) := rfl

theorem marshalMembers_head (kv : GoString × FieldValue) (kvs : List (GoString × FieldValue)) :
    ∃ t, marshalMembers (kv :: kvs) = '"' :: t := by
  cases kvs with
  | nil => exact ⟨_, by simp [marshalMembers, quote_eq]; rfl⟩
  | cons kv2 kvs => exact ⟨_, by simp [marshalMembers_cons_cons, quote_eq]; rfl⟩

/-- One member read back: key, colon and value, up to the delimiter. -/
theorem parseMember_step (kv : GoString × FieldValue) (fuel depth : Nat) (tail : GoString)
    (htail : isMemberEnd tail) :
    parseMembers (fuel + 2) depth (quote kv.1 ++ ':' :: kv.2.marshal ++ tail) =
      if tail.head? = some ',' then
        (parseMembers (fuel + 1) depth (skipSpace (tail.drop 1))).map
          fun x => ((kv.1, kv.2.toJson) :: x.1, x.2)
      else some ([(kv.1, kv.2.toJson)], tail.drop 1) := by
  have e : quote kv.1 ++ ':' :: kv.2.marshal ++ tail =
      '"' :: (kv.1.flatMap escapeChar ++ '"' :: (':' :: (kv.2.marshal ++ tail))) := by
    simp [quote_eq]
  have hk := parseStringBody_escaped kv.1
    ('"' :: (kv.1.flatMap escapeChar ++ '"' :: (':' :: (kv.2.marshal ++ tail)))).length
    (':' :: (kv.2.marshal ++ tail)) (by
      have := length_le_flatMap_escapeChar kv.1
      simp only [List.length_append, List.length_cons]
      omega)
  have hsp : skipSpace tail = tail := by
    cases tail with
    | nil => rfl
    | cons c t =>
      apply skipSpace_cons
      rcases htail with h | h <;> (simp only [List.head?_cons, Option.some.injEq] at h; subst h; decide)
  have hne : tail.head? = some ',' ∨ tail.head? = some '}' := htail
  rw [e]
  simp only [parseMembers, List.head?_cons, if_true, List.drop_succ_cons, List.drop_zero, hk]
  rw [skipSpace_cons _ _ (by decide)]
  simp only [List.head?_cons, if_true, List.drop_succ_cons, List.drop_zero,
    parseValue_marshal kv.2 fuel depth tail htail, hsp]
  by_cases hc : tail.head? = some ','
  · simp only [hc, if_true]
  · have hb : tail.head? = some '}' := by
      rcases hne with h | h
      · exact absurd h hc
      · exact h
    simp only [hc, if_false, hb, if_true]

theorem parseMembers_marshalMembers (fields : List (GoString × FieldValue)) :
    ∀ (fuel depth : Nat) (rest : GoString), fields ≠ [] → fields.length + 1 ≤ fuel →
      parseMembers fuel depth (marshalMembers fields ++ '}' :: rest) =
        some (fields.map (fun kv => (kv.1, kv.2.toJson)), rest) := by
  induction fields with
  | nil => intro _ _ _ h; exact absurd rfl h
  | cons kv kvs ih =>
    intro fuel depth rest _ hf
    obtain ⟨f, rfl⟩ : ∃ f, fuel = f + 2 := ⟨fuel - 2, by simp at hf; omega⟩
    cases kvs with
    | nil =>
      have e : marshalMembers [kv] ++ '}' :: rest =
          quote kv.1 ++ ':' :: kv.2.marshal ++ '}' :: rest := by
        simp [marshalMembers]
      rw [e, parseMember_step kv f depth ('}' :: rest) (Or.inr rfl)]
      simp
    | cons kv2 kvs =>
      have e : marshalMembers (kv :: kv2 :: kvs) ++ '}' :: rest =
          quote kv.1 ++ ':' :: kv.2.marshal ++ ',' :: (marshalMembers (kv2 :: kvs) ++ '}' :: rest) := by
        simp [marshalMembers_cons_cons]
      obtain ⟨t, ht⟩ := marshalMembers_head kv2 kvs
      rw [e, parseMember_step kv f depth (',' :: (marshalMembers (kv2 :: kvs) ++ '}' :: rest)) (Or.inl rfl)]
      simp only [List.head?_cons, if_true, List.drop_succ_cons, List.drop_zero]
      have hs : skipSpace (marshalMembers (kv2 :: kvs) ++ '}' :: rest) =
          marshalMembers (kv2 :: kvs) ++ '}' :: rest := by
        rw [ht]
        exact skipSpace_cons _ _ (by decide)
      rw [hs, ih (f + 1) depth rest (by simp) (by simp at hf ⊢; omega)]
      rfl

theorem length_le_marshalMembers (fields : List (GoString × FieldValue)) :
    fields.length ≤ (marshalMembers fields).length := by
  induction fields with
  | nil => simp [marshalMembers]
  | cons kv kvs ih =>
    cases kvs with
    | nil => simp [marshalMembers, quote_eq]
    | cons kv2 kvs =>
      rw [marshalMembers_cons_cons]
      simp only [List.length_append, List.length_cons] at ih ⊢
      omega

/-- Reading back an object the encoder wrote. -/
theorem parseJson_object (fields : List (GoString × FieldValue)) :
    parseJson ('{' :: marshalMembers fields ++ ['}']) =
      some (Json.object (fields.map fun kv => (kv.1, kv.2.toJson)), []) := by
  unfold parseJson
  rw [show '{' :: marshalMembers fields ++ ['}'] = '{' :: (marshalMembers fields ++ ['}']) from rfl,
    skipSpace_cons _ _ (by decide)]
  simp only [parseValue, if_true]
  rw [if_neg (by decide)]
  cases fields with
  | nil => simp [marshalMembers, skipSpace, List.dropWhile, isJsonSpace]
  | cons kv kvs =>
    obtain ⟨t, ht⟩ := marshalMembers_head kv kvs
    have hs : skipSpace (marshalMembers (kv :: kvs) ++ ['}']) =
        marshalMembers (kv :: kvs) ++ ['}'] := by
      rw [ht]
      exact skipSpace_cons _ _ (by decide)
    have hh : (marshalMembers (kv :: kvs) ++ ['}']).head? ≠ some '}' := by
      rw [ht]
      simp
    simp only [hs, hh, if_false]
    rw [parseMembers_marshalMembers (kv :: kvs) _ 1 [] (by simp) (by
      have := length_le_marshalMembers (kv :: kvs)
      simp only [List.length_append, List.length_cons, List.length_nil] at this ⊢
      omega)]
    rfl

/-! ## Claims and header of a token -/

theorem setClaims_append (A B : List (GoString × Json)) :
    ∀ c0 : JWTClaims, setClaims c0 (A ++ B) = (setClaims c0 A).bind fun c1 => setClaims c1 B := by
  induction A with
  | nil => intro c0; rfl
  | cons kv A ih =>
    intro c0
    simp only [List.cons_append, setClaims]
    cases h : setClaim c0 kv with
    | none => rfl
    | some c1 => simp [ih c1]

theorem setClaim_aud (c0 : JWTClaims) (j : Json) :
    setClaim c0 ("aud".toList, j) = (setString c0.Audience j).map fun x => { c0 with Audience := x } :=
  rfl

theorem setClaim_exp (c0 : JWTClaims) (j : Json) :
    setClaim c0 ("exp".toList, j) = (setInt64 c0.ExpiresAt j).map fun x => { c0 with ExpiresAt := x } :=
  rfl

theorem setClaim_jti (c0 : JWTClaims) (j : Json) :
    setClaim c0 ("jti".toList, j) = (setString c0.Id j).map fun x => { c0 with Id := x } :=
  rfl

theorem setClaim_iat (c0 : JWTClaims) (j : Json) :
    setClaim c0 ("iat".toList, j) = (setInt64 c0.IssuedAt j).map fun x => { c0 with IssuedAt := x } :=
  rfl

theorem setClaim_iss (c0 : JWTClaims) (j : Json) :
    setClaim c0 ("iss".toList, j) = (setString c0.Issuer j).map fun x => { c0 with Issuer := x } :=
  rfl

theorem setClaim_nbf (c0 : JWTClaims) (j : Json) :
    setClaim c0 ("nbf".toList, j) = (setInt64 c0.NotBefore j).map fun x => { c0 with NotBefore := x } :=
  rfl

theorem setClaim_sub (c0 : JWTClaims) (j : Json) :
    setClaim c0 ("sub".toList, j) = (setString c0.Subject j).map fun x => { c0 with Subject := x } :=
  rfl

/-- A string field read back into claims that hold the zero value there. -/
theorem setClaims_stringField (k : GoString) (v : GoString) (c0 : JWTClaims)
    (upd : JWTClaims → GoString → JWTClaims) (get : JWTClaims → GoString)
    (hset : ∀ j, setClaim c0 (k, j) = (setString (get c0) j).map (upd c0))
    (hupd : upd c0 [] = c0) :
    setClaims c0 ((stringField k v).map fun kv => (kv.1, kv.2.toJson)) = some (upd c0 v) := by
  unfold stringField
  cases v with
  | nil => simp [setClaims, hupd]
  | cons x v => simp [setClaims, hset, FieldValue.toJson, setString]

/-- An `int64` field read back into claims that hold the zero value there. -/
theorem setClaims_int64Field (k : GoString) (v : Int) (hv : isInt64 v) (c0 : JWTClaims)
    (upd : JWTClaims → Int → JWTClaims) (get : JWTClaims → Int)
    (hset : ∀ j, setClaim c0 (k, j) = (setInt64 (get c0) j).map (upd c0))
    (hupd : upd c0 0 = c0) :
    setClaims c0 ((int64Field k v).map fun kv => (kv.1, kv.2.toJson)) = some (upd c0 v) := by
  unfold int64Field
  by_cases h : v = 0
  · subst h
    simp [setClaims, hupd]
  · simp [h, setClaims, hset, FieldValue.toJson, setInt64, ParseInt64_FormatInt v hv]

theorem setClaims_claimsFields (c : JWTClaims) (h : c.wellTyped) :
    setClaims {} ((claimsFields c).map fun kv => (kv.1, kv.2.toJson)) = some c := by
  obtain ⟨he, hi, hn⟩ := h
  unfold claimsFields
  simp only [List.map_append, setClaims_append]
  rw [setClaims_stringField "aud".toList c.Audience {} (fun c0 x => { c0 with Audience := x })
    (fun c0 => c0.Audience) (setClaim_aud _) rfl]
  simp only [Option.some_bind]
  rw [setClaims_int64Field "exp".toList c.ExpiresAt he _ (fun c0 x => { c0 with ExpiresAt := x })
    (fun c0 => c0.ExpiresAt) (setClaim_exp _) rfl]
  simp only [Option.some_bind]
  rw [setClaims_stringField "jti".toList c.Id _ (fun c0 x => { c0 with Id := x })
    (fun c0 => c0.Id) (setClaim_jti _) rfl]
  simp only [Option.some_bind]
  rw [setClaims_int64Field "iat".toList c.IssuedAt hi _ (fun c0 x => { c0 with IssuedAt := x })
    (fun c0 => c0.IssuedAt) (setClaim_iat _) rfl]
  simp only [Option.some_bind]
  rw [setClaims_stringField "iss".toList c.Issuer _ (fun c0 x => { c0 with Issuer := x })
    (fun c0 => c0.Issuer) (setClaim_iss _) rfl]
  simp only [Option.some_bind]
  rw [setClaims_int64Field "nbf".toList c.NotBefore hn _ (fun c0 x => { c0 with NotBefore := x })
    (fun c0 => c0.NotBefore) (setClaim_nbf _) rfl]
  simp only [Option.some_bind]
  rw [setClaims_stringField "sub".toList c.Subject _ (fun c0 x => { c0 with Subject := x })
    (fun c0 => c0.Subject) (setClaim_sub _) rfl]

theorem decodeClaims_marshalClaims (c : JWTClaims) (h : c.wellTyped) :
    decodeClaims (utf8Encode (marshalClaims c)) = some c := by
  unfold decodeClaims marshalClaims
  rw [utf8Decode_utf8Encode, parseJson_object]
  exact setClaims_claimsFields c h

set_option maxRecDepth 100000 in
theorem unmarshalHeader_marshalHeader :
    unmarshalHeader (utf8Encode (marshalHeader .HS256)) =
      some [("alg".toList, Json.string "HS256".toList), ("typ".toList, Json.string "JWT".toList)] := by
  decide!

/-- The token that `ParseUnverified` reads from a signing string and any third
segment without a dot. -/
theorem ParseUnverified_SigningString (c : JWTClaims) (h : c.wellTyped) (sig : GoString)
    (hsig : '.' ∉ sig) :
    ParseUnverified (SigningString c ++ '.' :: sig) =
      .ok ({ Raw := SigningString c ++ '.' :: sig, Method := .HS256,
             Header := [("alg".toList, Json.string "HS256".toList),
                        ("typ".toList, Json.string "JWT".toList)],
             Claims := .jwtClaims c, Signature := [], Valid := false },
           EncodeSegment (utf8Encode (marshalHeader .HS256)),
           EncodeSegment (utf8Encode (marshalClaims c)), sig) := by
  unfold ParseUnverified
  have hs : Split (SigningString c ++ '.' :: sig) '.' =
      [EncodeSegment (utf8Encode (marshalHeader .HS256)),
       EncodeSegment (utf8Encode (marshalClaims c)), sig] := by
    unfold SigningString
    exact Split_three _ _ _ (EncodeSegment_no_dot _) (EncodeSegment_no_dot _) hsig
  rw [hs]
  simp only [DecodeSegment_EncodeSegment, unmarshalHeader_marshalHeader,
    decodeClaims_marshalClaims c h]
  rfl

/-- The time claims the decoder stores are values of type `int64`. -/
theorem ParseInt64_isInt64 (s : GoString) (v : Int) (h : ParseInt64 s = some v) : isInt64 v := by
  unfold ParseInt64 at h
  simp only at h
  split_ifs at h
  all_goals (rw [← Option.some.inj h]; unfold isInt64; assumption)

theorem setInt64_isInt64 (old : Int) (j : Json) (v : Int) (hold : isInt64 old)
    (h : setInt64 old j = some v) : isInt64 v := by
  unfold setInt64 at h
  split at h
  · exact ParseInt64_isInt64 _ _ h
  · cases h; exact hold
  · exact absurd h (by simp)

theorem setClaim_wellTyped (c c' : JWTClaims) (kv : GoString × Json) (hc : c.wellTyped)
    (h : setClaim c kv = some c') : c'.wellTyped := by
  unfold setClaim at h
  obtain ⟨h1, h2, h3⟩ := hc
  split_ifs at h
  all_goals first
    | (cases h; exact ⟨h1, h2, h3⟩)
    | (simp only [Option.map_eq_some'] at h
       obtain ⟨x, hx, rfl⟩ := h
       first
         | exact ⟨h1, h2, h3⟩
         | exact ⟨setInt64_isInt64 _ _ _ h1 hx, h2, h3⟩
         | exact ⟨h1, setInt64_isInt64 _ _ _ h2 hx, h3⟩
         | exact ⟨h1, h2, setInt64_isInt64 _ _ _ h3 hx⟩)

theorem setClaims_wellTyped (kvs : List (GoString × Json)) (c c' : JWTClaims)
    (hc : c.wellTyped) (h : setClaims c kvs = some c') : c'.wellTyped := by
  induction kvs generalizing c with
  | nil =>
    simp only [setClaims, Option.some.injEq] at h
    rw [← h]; exact hc
  | cons kv kvs ih =>
    simp only [setClaims, Option.bind_eq_some] at h
    obtain ⟨c1, h1, h2⟩ := h
    exact ih c1 (setClaim_wellTyped c c1 kv hc h1) h2

theorem decodeClaims_wellTyped (data : List Byte) (c : JWTClaims)
    (h : decodeClaims data = some c) : c.wellTyped := by
  have h0 : ({} : JWTClaims).wellTyped := by decide
  unfold decodeClaims at h
  split at h
  · exact setClaims_wellTyped _ _ _ h0 h
  · cases h; exact h0
  · exact absurd h (by simp)

/-- The time claims of a token `ParseUnverified` returns are values of type
`int64`. -/
theorem ParseUnverified_wellTyped (tokenString : GoString) (tok : Token)
    (p0 p1 p2 : GoString) (c : JWTClaims)
    (h : ParseUnverified tokenString = .ok (tok, p0, p1, p2))
    (hc : tok.Claims = .jwtClaims c) : c.wellTyped := by
  unfold ParseUnverified at h
  repeat' split at h
  all_goals first
    | (cases h; done)
    | (cases h
       simp only [Claims.jwtClaims.injEq] at hc
       subst hc
       exact decodeClaims_wellTyped _ _ (by assumption))

/-! ## Validation of the claims and error messages -/

/-- The instant of a time claim that fits an `int64` is not after the instant
the claim names. -/
theorem unixTime_le (x n : Int) (hx : isInt64 x) (h : x ≤ n) : unixTime x ≤ clockTime n := by
  unfold isInt64 at hx
  unfold unixTime clockTime wrapInt64 unixToInternal
  omega

/-- Below `2 ^ 63 - unixToInternal` the instant of a time claim is the instant
the claim names. -/
theorem unixTime_lt (x n : Int) (hx : isInt64 x) (hfit : x < 2 ^ 63 - unixToInternal)
    (h : n < x) : clockTime n < unixTime x := by
  unfold isInt64 at hx
  unfold unixToInternal at hfit
  unfold unixTime clockTime wrapInt64 unixToInternal
  omega

/-- From `2 ^ 63 - unixToInternal` on the instant of a time claim has wrapped
around: it is before every clock reading an `int64` can count the seconds of. -/
theorem unixTime_wrapped (x n : Int) (hx : isInt64 x) (hbig : 2 ^ 63 - unixToInternal ≤ x)
    (hn : -(2 : Int) ^ 63 ≤ n) : unixTime x ≤ clockTime n := by
  unfold isInt64 at hx
  unfold unixToInternal at hbig
  unfold unixTime clockTime wrapInt64 unixToInternal
  omega

theorem or_flag_ne_zero (a : Nat) : a ||| ValidationErrorExpired ≠ 0 ∧
    a ||| ValidationErrorIssuedAt ≠ 0 ∧ a ||| ValidationErrorNotValidYet ≠ 0 ∧
    a ||| ValidationErrorSignatureInvalid ≠ 0 := by
  refine ⟨?_, ?_, ?_, ?_⟩
  · intro h
    have := congrArg (fun x => x.testBit 4) h
    simp only [Nat.testBit_or, Nat.zero_testBit, Bool.or_eq_false_iff] at this
    exact absurd this.2 (by decide)
  · intro h
    have := congrArg (fun x => x.testBit 5) h
    simp only [Nat.testBit_or, Nat.zero_testBit, Bool.or_eq_false_iff] at this
    exact absurd this.2 (by decide)
  · intro h
    have := congrArg (fun x => x.testBit 7) h
    simp only [Nat.testBit_or, Nat.zero_testBit, Bool.or_eq_false_iff] at this
    exact absurd this.2 (by decide)
  · intro h
    have := congrArg (fun x => x.testBit 2) h
    simp only [Nat.testBit_or, Nat.zero_testBit, Bool.or_eq_false_iff] at this
    exact absurd this.2 (by decide)

theorem Valid_some_not_valid (c : StandardClaims) (now : Time) (v : ValidationError)
    (h : c.Valid now = some v) : v.valid = false := by
  unfold StandardClaims.Valid at h
  simp only at h
  split at h
  · exact absurd h (by simp)
  · rename_i hv
    simp only [Option.some.injEq] at h
    rw [← h]
    simpa using hv

/-- Claims pass validation when `exp` is zero or the clock reading is before
its instant, and `iat` and `nbf` are zero or their instants not after the
clock reading. -/
theorem Valid_none (c : StandardClaims) (now : Time)
    (he : c.ExpiresAt = 0 ∨ clockTime now.Unix < unixTime c.ExpiresAt)
    (hi : c.IssuedAt = 0 ∨ unixTime c.IssuedAt ≤ clockTime now.Unix)
    (hn : c.NotBefore = 0 ∨ unixTime c.NotBefore ≤ clockTime now.Unix) :
    c.Valid now = none := by
  have h1 : c.VerifyExpiresAt now.Unix false = true := by
    unfold StandardClaims.VerifyExpiresAt
    by_cases h : c.ExpiresAt = 0
    · simp [h]
    · rcases he with he | he
      · exact absurd he h
      · simp [h, he]
  have h2 : c.VerifyIssuedAt now.Unix false = true := by
    unfold StandardClaims.VerifyIssuedAt
    by_cases h : c.IssuedAt = 0
    · simp [h]
    · rcases hi with hi | hi
      · exact absurd hi h
      · simp [h, hi]
  have h3 : c.VerifyNotBefore now.Unix false = true := by
    unfold StandardClaims.VerifyNotBefore
    by_cases h : c.NotBefore = 0
    · simp [h]
    · rcases hn with hn | hn
      · exact absurd hn h
      · simp [h, hn]
  simp [StandardClaims.Valid, checkExpiresAt, checkIssuedAt, checkNotBefore, h1, h2, h3,
    ValidationError.valid]

/-- Claims whose `exp` is not zero and its instant not after the clock reading,
with `iat` and `nbf` in order, fail validation with the expiry error. -/
theorem Valid_expired (c : StandardClaims) (now : Time)
    (he0 : c.ExpiresAt ≠ 0) (he : unixTime c.ExpiresAt ≤ clockTime now.Unix)
    (hi : c.IssuedAt = 0 ∨ unixTime c.IssuedAt ≤ clockTime now.Unix)
    (hn : c.NotBefore = 0 ∨ unixTime c.NotBefore ≤ clockTime now.Unix) :
    c.Valid now = some
      { Inner := some ("token is expired by ".toList ++
          durationString (subUnix now.Unix c.ExpiresAt))
        Errors := ValidationErrorExpired
        text := [] } := by
  have h1 : c.VerifyExpiresAt now.Unix false = false := by
    unfold StandardClaims.VerifyExpiresAt
    simp only [he0, if_false, decide_eq_false_iff_not]
    omega
  have h2 : c.VerifyIssuedAt now.Unix false = true := by
    unfold StandardClaims.VerifyIssuedAt
    by_cases h : c.IssuedAt = 0
    · simp [h]
    · rcases hi with hi | hi
      · exact absurd hi h
      · simp [h, hi]
  have h3 : c.VerifyNotBefore now.Unix false = true := by
    unfold StandardClaims.VerifyNotBefore
    by_cases h : c.NotBefore = 0
    · simp [h]
    · rcases hn with hn | hn
      · exact absurd hn h
      · simp [h, hn]
  simp only [StandardClaims.Valid, checkExpiresAt, checkIssuedAt, checkNotBefore, h1, h2, h3,
    ValidationError.valid, Bool.not_false, Bool.not_true, if_true, Bool.false_eq_true, if_false]
  rfl

/-- Claims whose `exp` is not zero and its instant not after the clock reading
fail validation, whatever the other time claims. -/
theorem Valid_some_of_expired (c : StandardClaims) (now : Time)
    (he0 : c.ExpiresAt ≠ 0) (he : unixTime c.ExpiresAt ≤ clockTime now.Unix) :
    ∃ v, c.Valid now = some v := by
  have h1 : c.VerifyExpiresAt now.Unix false = false := by
    unfold StandardClaims.VerifyExpiresAt
    simp only [he0, if_false, decide_eq_false_iff_not]
    omega
  have hE : (checkExpiresAt c now.Unix {}).Errors ≠ 0 := by
    simp only [checkExpiresAt, h1, Bool.not_false, if_true]
    exact (or_flag_ne_zero _).1
  have hI : (checkIssuedAt c now.Unix (checkExpiresAt c now.Unix {})).Errors ≠ 0 := by
    unfold checkIssuedAt
    split
    · exact (or_flag_ne_zero _).2.1
    · exact hE
  have hN : (checkNotBefore c now.Unix
      (checkIssuedAt c now.Unix (checkExpiresAt c now.Unix {}))).Errors ≠ 0 := by
    unfold checkNotBefore
    split
    · exact (or_flag_ne_zero _).2.2.1
    · exact hI
  refine ⟨checkNotBefore c now.Unix
    (checkIssuedAt c now.Unix (checkExpiresAt c now.Unix {})), ?_⟩
  simp only [StandardClaims.Valid, ValidationError.valid, decide_eq_true_eq, hN, if_false]

/-- No error message of `SigningMethod.Verify` has the word `expired`. -/
theorem Verify_message (m : SigningMethod) (ss sig : GoString) (key : List Byte) (msg : GoString)
    (h : m.Verify ss sig key = some msg) : Contains msg "expired".toList = false := by
  unfold SigningMethod.Verify at h
  cases m <;> simp only [SigningMethod.hash] at h
  all_goals first
    | (split at h
       · cases h; decide
       · split at h
         · exact absurd h (by simp)
         · cases h; decide)
    | (split at h
       · cases h; decide
       · cases h; decide)
    | (cases h; decide)

/-- No error of `ParseUnverified` has a message with the word `expired`. -/
theorem ParseUnverified_message (tokenString : GoString) (e : ValidationError)
    (h : ParseUnverified tokenString = .error e) :
    Contains e.Error "expired".toList = false := by
  unfold ParseUnverified at h
  repeat' split at h
  all_goals first
    | (cases h; decide)
    | exact absurd h (by simp)

/-! ## What `ParseToken` returns -/

/-- A token the library cannot read as a token is an invalid token for the
service. -/
theorem ParseToken_of_unverified_error (tokenString secret : GoString) (now : Time)
    (e : ValidationError) (h : ParseUnverified tokenString = .error e) :
    ParseToken tokenString secret now = .error (.New .BadRequest "Invalid ID token".toList) := by
  simp only [ParseToken, ParseWithClaims, h, ParseUnverified_message tokenString e h,
    Bool.not_false, if_true]

/-- A token whose signature the method does not accept is an invalid token for
the service, whatever its claims. -/
theorem ParseToken_of_verify_error (tokenString secret : GoString) (now : Time) (tok : Token)
    (p0 p1 p2 msg : GoString) (h : ParseUnverified tokenString = .ok (tok, p0, p1, p2))
    (hv : tok.Method.Verify (p0 ++ '.' :: p1) p2 (utf8Encode secret) = some msg) :
    ParseToken tokenString secret now = .error (.New .BadRequest "Invalid ID token".toList) := by
  have hc := Verify_message _ _ _ _ _ hv
  simp only [ParseToken, ParseWithClaims, h, hv, ValidationError.valid, decide_eq_true_eq,
    (or_flag_ne_zero _).2.2.2, if_false, ValidationError.Error, hc, Bool.not_false, if_true]

/-- A token with an accepted signature and claims that pass validation is
returned, marked valid. -/
theorem ParseToken_of_valid (tokenString secret : GoString) (now : Time) (tok : Token)
    (p0 p1 p2 : GoString) (c : JWTClaims)
    (h : ParseUnverified tokenString = .ok (tok, p0, p1, p2))
    (hv : tok.Method.Verify (p0 ++ '.' :: p1) p2 (utf8Encode secret) = none)
    (hc : tok.Claims = .jwtClaims c) (hvalid : c.toStandardClaims.Valid now = none) :
    ParseToken tokenString secret now = .ok { tok with Signature := p2, Valid := true } := by
  simp only [ParseToken, ParseWithClaims, h, hv, hc, hvalid, Option.getD_none,
    ValidationError.valid, decide_True, if_true]

/-- A token with an accepted signature and claims that fail validation gives
the error of the validation when its message has the word `expired`, and the
error of an invalid token otherwise. -/
theorem ParseToken_of_claims_error (tokenString secret : GoString) (now : Time) (tok : Token)
    (p0 p1 p2 : GoString) (c : JWTClaims) (v : ValidationError)
    (h : ParseUnverified tokenString = .ok (tok, p0, p1, p2))
    (hv : tok.Method.Verify (p0 ++ '.' :: p1) p2 (utf8Encode secret) = none)
    (hc : tok.Claims = .jwtClaims c) (hvalid : c.toStandardClaims.Valid now = some v) :
    ParseToken tokenString secret now =
      if Contains v.Error "expired".toList then .error (.jwt v)
      else .error (.New .BadRequest "Invalid ID token".toList) := by
  have hnv := Valid_some_not_valid _ _ _ hvalid
  simp only [ParseToken, ParseWithClaims, h, hv, hc, hvalid, Option.getD_some, hnv,
    Bool.false_eq_true, if_false]
  cases Contains v.Error "expired".toList <;> rfl

theorem ParseToken_of_expired (tokenString secret : GoString) (now : Time) (tok : Token)
    (p0 p1 p2 : GoString) (c : JWTClaims)
    (h : ParseUnverified tokenString = .ok (tok, p0, p1, p2))
    (hv : tok.Method.Verify (p0 ++ '.' :: p1) p2 (utf8Encode secret) = none)
    (hc : tok.Claims = .jwtClaims c)
    (he0 : c.ExpiresAt ≠ 0) (he : unixTime c.ExpiresAt ≤ clockTime now.Unix)
    (hi : c.IssuedAt = 0 ∨ unixTime c.IssuedAt ≤ clockTime now.Unix)
    (hn : c.NotBefore = 0 ∨ unixTime c.NotBefore ≤ clockTime now.Unix) :
    ParseToken tokenString secret now = .error (.jwt
      { Inner := some ("token is expired by ".toList ++
          durationString (subUnix now.Unix c.ExpiresAt))
        Errors := ValidationErrorExpired
        text := [] }) := by
  rw [ParseToken_of_claims_error tokenString secret now tok p0 p1 p2 c _ h hv hc
    (Valid_expired c.toStandardClaims now he0 he hi hn)]
  simp only [ValidationError.Error, Contains_expired, if_true]

theorem GenerateToken_fst (c : JWTClaims) (s : GoString) :
    (GenerateToken c s).1 = SigningString c ++
      '.' :: EncodeSegment (hmac sha256 (utf8Encode s) (utf8Encode (SigningString c))) := by
  simp [GenerateToken, SignedString, SigningMethod.Sign]

theorem Verify_signed (ss : GoString) (tag key : List Byte) :
    SigningMethod.Verify .HS256 ss (EncodeSegment tag) key =
      if tag = hmac sha256 key (utf8Encode ss) then none
      else some "signature is invalid".toList := by
  simp only [SigningMethod.Verify, SigningMethod.hash, DecodeSegment_EncodeSegment]

theorem SigningString_eq (c : JWTClaims) :
    EncodeSegment (utf8Encode (marshalHeader .HS256)) ++
      '.' :: EncodeSegment (utf8Encode (marshalClaims c)) = SigningString c := rfl

/-- The token `GenerateToken` makes with one secret, read with a secret that
gives the same signature: accepted when the claims pass validation. -/
theorem ParseToken_GenerateToken_valid (c : JWTClaims) (s r : GoString) (now : Time)
    (h : c.wellTyped)
    (htag : hmac sha256 (utf8Encode s) (utf8Encode (SigningString c)) =
      hmac sha256 (utf8Encode r) (utf8Encode (SigningString c)))
    (hvalid : c.toStandardClaims.Valid now = none) :
    ParseToken (GenerateToken c s).1 r now =
      .ok { Raw := (GenerateToken c s).1, Method := .HS256,
            Header := [("alg".toList, Json.string "HS256".toList),
                       ("typ".toList, Json.string "JWT".toList)],
            Claims := .jwtClaims c,
            Signature := EncodeSegment
              (hmac sha256 (utf8Encode s) (utf8Encode (SigningString c))),
            Valid := true } := by
  rw [GenerateToken_fst]
  rw [ParseToken_of_valid _ r now _ _ _ _ c
    (ParseUnverified_SigningString c h _ (EncodeSegment_no_dot _))
    (by rw [SigningString_eq, Verify_signed, if_pos htag]) rfl hvalid]

/-- The same token when its claims have expired: the expiry error. -/
theorem ParseToken_GenerateToken_expired (c : JWTClaims) (s r : GoString) (now : Time)
    (h : c.wellTyped)
    (htag : hmac sha256 (utf8Encode s) (utf8Encode (SigningString c)) =
      hmac sha256 (utf8Encode r) (utf8Encode (SigningString c)))
    (he0 : c.ExpiresAt ≠ 0) (he : unixTime c.ExpiresAt ≤ clockTime now.Unix)
    (hi : c.IssuedAt = 0 ∨ unixTime c.IssuedAt ≤ clockTime now.Unix)
    (hn : c.NotBefore = 0 ∨ unixTime c.NotBefore ≤ clockTime now.Unix) :
    ParseToken (GenerateToken c s).1 r now = .error (.jwt
      { Inner := some ("token is expired by ".toList ++
          durationString (subUnix now.Unix c.ExpiresAt))
        Errors := ValidationErrorExpired
        text := [] }) := by
  rw [GenerateToken_fst]
  exact ParseToken_of_expired _ r now _ _ _ _ c
    (ParseUnverified_SigningString c h _ (EncodeSegment_no_dot _))
    (by rw [SigningString_eq, Verify_signed, if_pos htag]) rfl he0 he hi hn

/-- The same token when its `exp` is not zero and its instant not after the
clock reading: some error, whatever the other time claims. -/
theorem ParseToken_GenerateToken_error (c : JWTClaims) (s : GoString) (now : Time)
    (h : c.wellTyped) (he0 : c.ExpiresAt ≠ 0) (he : unixTime c.ExpiresAt ≤ clockTime now.Unix) :
    ∃ e, ParseToken (GenerateToken c s).1 s now = .error e := by
  obtain ⟨v, hv⟩ := Valid_some_of_expired c.toStandardClaims now he0 he
  rw [GenerateToken_fst]
  rw [ParseToken_of_claims_error _ s now _ _ _ _ c v
    (ParseUnverified_SigningString c h _ (EncodeSegment_no_dot _))
    (by rw [SigningString_eq, Verify_signed, if_pos rfl]) rfl hv]
  split
  · exact ⟨_, rfl⟩
  · exact ⟨_, rfl⟩

/-- The token `GenerateToken` makes with one secret, read with a secret that
gives another signature: an invalid token, whatever its claims. -/
theorem ParseToken_GenerateToken_invalid (c : JWTClaims) (s r : GoString) (now : Time)
    (h : c.wellTyped)
    (htag : hmac sha256 (utf8Encode s) (utf8Encode (SigningString c)) ≠
      hmac sha256 (utf8Encode r) (utf8Encode (SigningString c))) :
    ParseToken (GenerateToken c s).1 r now =
      .error (.New .BadRequest "Invalid ID token".toList) := by
  rw [GenerateToken_fst]
  exact ParseToken_of_verify_error _ r now _ _ _ _ "signature is invalid".toList
    (ParseUnverified_SigningString c h _ (EncodeSegment_no_dot _))
    (by rw [SigningString_eq, Verify_signed, if_neg htag])

/-! ## The service and the handlers -/

theorem GenerateToken_eq (c : JWTClaims) (s : GoString) :
    GenerateToken c s = ((GenerateToken c s).1, none) := by
  simp [GenerateToken, SignedString]

theorem wrapInt64_of_fits (v : Int) (h : isInt64 v) : wrapInt64 v = v := by
  unfold isInt64 at h
  unfold wrapInt64
  omega

theorem isInt64_zero : isInt64 0 := by decide

theorem VerifyToken_valid (tok : Token) (c : JWTClaims) (hc : tok.Claims = .jwtClaims c)
    (hv : tok.Valid = true) : VerifyToken tok = .ok c := by
  simp [VerifyToken, hc, hv]

theorem hmac_zero_padded_key :
    hmacKeyBlock sha256 (utf8Encode "k".toList) =
      hmacKeyBlock sha256 (utf8Encode ("k".toList ++ [Char.ofNat 0])) := by
  decide

/-- A header made of the marker, a space and a credential without leading or
trailing white space gives the credential. -/
theorem GetTokenFromHeader_bearer (t : GoString)
    (h1 : ∀ c, t.head? = some c → isSpace c = false)
    (h2 : ∀ c, t.getLast? = some c → isSpace c = false) :
    GetTokenFromHeader ("Bearer ".toList ++ t) = (t, none) := by
  have hidx : Index ("Bearer ".toList ++ t) "Bearer".toList = some 0 :=
    Index_eq_zero_of_HasPrefix _ _ (HasPrefix_append "Bearer".toList (' ' :: t))
  have hrep := Replace_first ("Bearer ".toList ++ t) "Bearer".toList 0 (by decide) hidx
  have hc : Contains ("Bearer ".toList ++ t) "Bearer".toList = true := by
    rw [Contains, hidx]; rfl
  have hne : "Bearer ".toList ++ t ≠ [] := by simp
  have htrim : TrimSpace (' ' :: t) = t := by
    have h := TrimSpace_append_of_all_space [' '] t (by decide)
    rw [TrimSpace_eq_self t h1 h2] at h
    exact h
  simp only [GetTokenFromHeader, hne, if_false, hc, Bool.not_true, Bool.false_eq_true, hrep]
  exact congrArg (fun x => (x, (none : Option Error))) htrim

theorem GenerateToken_no_space (c : JWTClaims) (s : GoString) :
    ∀ x ∈ (GenerateToken c s).1, isSpace x = false := by
  intro x hx
  rw [GenerateToken_fst, SigningString] at hx
  simp only [List.mem_append, List.mem_cons] at hx
  rcases hx with (hx | rfl | hx) | rfl | hx
  · exact EncodeSegment_no_space _ x hx
  · decide
  · exact EncodeSegment_no_space _ x hx
  · decide
  · exact EncodeSegment_no_space _ x hx

theorem GetTokenFromHeader_token (c : JWTClaims) (s : GoString) :
    GetTokenFromHeader ("Bearer ".toList ++ (GenerateToken c s).1) = ((GenerateToken c s).1, none) := by
  apply GetTokenFromHeader_bearer
  · intro x hx
    exact GenerateToken_no_space c s x (List.mem_of_mem_head? hx)
  · intro x hx
    exact GenerateToken_no_space c s x (List.mem_of_getLast?_eq_some hx)

theorem ObtainJwtToken_success (env : Env) (co : Collaborators) (user : User)
    (now1 now2 : Time)
    (hbind : co.ShouldBindJSON.2 = none)
    (hvalid : co.ValidateStruct co.ShouldBindJSON.1 = none)
    (hfound : co.CheckUserWithPhone co.ShouldBindJSON.1.Phone = (user, true, none))
    (hpw : co.CompareHashAndPlainPassword user.Password co.ShouldBindJSON.1.Password = true) :
    ObtainJwtToken env co now1 now2 =
      ⟨.SuccessJSON StatusOK
        [ ("user".toList, .map user.ToMap),
          ("access_token".toList, .string (GenerateToken
            { ExpiresAt := (now1.Add (wrapInt64 (Minute * env.JwtAccessTokenExpiresAt))).Unix
              Id := user.UserId } env.JwtAccessSecret).1),
          ("refresh_token".toList, .string (GenerateToken
            { ExpiresAt := (now2.Add (wrapInt64 (Hour * env.JwtRefreshTokenExpiresAt))).Unix
              Id := user.UserId } env.JwtRefreshSecret).1),
          ("access_expires_at".toList,
            .int64 (now1.Add (wrapInt64 (Minute * env.JwtAccessTokenExpiresAt))).Unix),
          ("refresh_expires_at".toList,
            .int64 (now2.Add (wrapInt64 (Hour * env.JwtRefreshTokenExpiresAt))).Unix) ],
        [ ({ ExpiresAt := (now1.Add (wrapInt64 (Minute * env.JwtAccessTokenExpiresAt))).Unix
             Id := user.UserId }, env.JwtAccessSecret),
          ({ ExpiresAt := (now2.Add (wrapInt64 (Hour * env.JwtRefreshTokenExpiresAt))).Unix
             Id := user.UserId }, env.JwtRefreshSecret) ]⟩ := by
  unfold ObtainJwtToken
  simp only [hbind, hvalid, hfound, hpw]
  rw [GenerateToken_eq _ env.JwtAccessSecret, GenerateToken_eq _ env.JwtRefreshSecret]
  rfl

theorem RefreshJwtToken_extract_error (env : Env) (header : GoString) (now1 now2 : Time)
    (e : Error) (h : (GetTokenFromHeader header).2 = some e) :
    RefreshJwtToken env header now1 now2 =
      ⟨.HandleError (.Wrap .Unauthorized e "Something went wrong".toList), []⟩ := by
  unfold RefreshJwtToken
  simp only [h]

theorem RefreshJwtToken_parse_error (env : Env) (header : GoString) (now1 now2 : Time)
    (e : Error) (h1 : (GetTokenFromHeader header).2 = none)
    (h2 : ParseToken (GetTokenFromHeader header).1 env.JwtRefreshSecret now1 = .error e) :
    RefreshJwtToken env header now1 now2 =
      ⟨.HandleError (.Wrap .Unauthorized e "Something went wrong".toList), []⟩ := by
  unfold RefreshJwtToken
  simp only [h1, h2]

theorem RefreshJwtToken_verify_error (env : Env) (header : GoString) (now1 now2 : Time)
    (tok : Token) (e : Error) (h1 : (GetTokenFromHeader header).2 = none)
    (h2 : ParseToken (GetTokenFromHeader header).1 env.JwtRefreshSecret now1 = .ok tok)
    (h3 : VerifyToken tok = .error e) :
    RefreshJwtToken env header now1 now2 =
      ⟨.HandleError (.Wrap .Unauthorized e "Something went wrong".toList), []⟩ := by
  unfold RefreshJwtToken
  simp only [h1, h2, h3]

theorem RefreshJwtToken_success (env : Env) (header : GoString) (now1 now2 : Time)
    (tok : Token) (K : JWTClaims) (h1 : (GetTokenFromHeader header).2 = none)
    (h2 : ParseToken (GetTokenFromHeader header).1 env.JwtRefreshSecret now1 = .ok tok)
    (h3 : VerifyToken tok = .ok K) :
    RefreshJwtToken env header now1 now2 =
      ⟨.SuccessJSON StatusOK
        [ ("access_token".toList, .string (GenerateToken
            { ExpiresAt := (now2.Add (wrapInt64 (Minute * env.JwtAccessTokenExpiresAt))).Unix
              Id := K.Id } env.JwtAccessSecret).1),
          ("expires_at".toList,
            .int64 (now2.Add (wrapInt64 (Minute * env.JwtAccessTokenExpiresAt))).Unix) ],
        [ ({ ExpiresAt := (now2.Add (wrapInt64 (Minute * env.JwtAccessTokenExpiresAt))).Unix
             Id := K.Id }, env.JwtAccessSecret) ]⟩ := by
  unfold RefreshJwtToken
  simp only [h1, h2, h3]
  rw [GenerateToken_eq _ env.JwtAccessSecret]

/-! ## The claims of the specification -/

/-- Claim C1, as the code behaves: for every login request that binds and
validates, the response to an unknown identifier and the response to a known
identifier with a wrong password have the same status and different message
bodies, so the two responses are not identical. -/
theorem C1_login_failures_differ (env : Env) (co1 co2 : Collaborators) (user : User)
    (now1 now2 now3 now4 : Time)
    (hreq : co1.ShouldBindJSON = co2.ShouldBindJSON)
    (hbind : co1.ShouldBindJSON.2 = none)
    (hv1 : co1.ValidateStruct co1.ShouldBindJSON.1 = none)
    (hv2 : co2.ValidateStruct co2.ShouldBindJSON.1 = none)
    (hmissing : (co1.CheckUserWithPhone co1.ShouldBindJSON.1.Phone).2 = (false, none))
    (hfound : co2.CheckUserWithPhone co2.ShouldBindJSON.1.Phone = (user, true, none))
    (hpw : co2.CompareHashAndPlainPassword user.Password co2.ShouldBindJSON.1.Password = false) :
    (ObtainJwtToken env co1 now1 now2).response =
      .ErrorJSON StatusBadRequest "Phone number or Password does not match".toList ∧
    (ObtainJwtToken env co2 now3 now4).response =
      .ErrorJSON StatusBadRequest "Invalid user credentials".toList ∧
    (ObtainJwtToken env co1 now1 now2).response ≠ (ObtainJwtToken env co2 now3 now4).response := by
  have hbind2 : co2.ShouldBindJSON.2 = none := hreq ▸ hbind
  have r1 : (ObtainJwtToken env co1 now1 now2).response =
      .ErrorJSON StatusBadRequest "Phone number or Password does not match".toList := by
    obtain ⟨u, hu⟩ : ∃ u, co1.CheckUserWithPhone co1.ShouldBindJSON.1.Phone = (u, false, none) :=
      ⟨(co1.CheckUserWithPhone co1.ShouldBindJSON.1.Phone).1, by rw [← hmissing]⟩
    unfold ObtainJwtToken
    simp only [hbind, hv1, hu]
    rfl
  have r2 : (ObtainJwtToken env co2 now3 now4).response =
      .ErrorJSON StatusBadRequest "Invalid user credentials".toList := by
    unfold ObtainJwtToken
    simp only [hbind2, hv2, hfound, hpw]
    rfl
  refine ⟨r1, r2, ?_⟩
  rw [r1, r2]
  decide

/-- Witness of C1 at the request of `sampleCollaborators`. -/
theorem C1_login_failures_differ_witness :
    (ObtainJwtToken sampleEnv (sampleCollaborators false true) 0 0).response =
      .ErrorJSON StatusBadRequest "Phone number or Password does not match".toList ∧
    (ObtainJwtToken sampleEnv (sampleCollaborators true false) 0 0).response =
      .ErrorJSON StatusBadRequest "Invalid user credentials".toList ∧
    (ObtainJwtToken sampleEnv (sampleCollaborators false true) 0 0).response ≠
      (ObtainJwtToken sampleEnv (sampleCollaborators true false) 0 0).response :=
  C1_login_failures_differ sampleEnv (sampleCollaborators false true)
    (sampleCollaborators true false) sampleUser 0 0 0 0 rfl rfl rfl rfl rfl rfl rfl

/-- Claim C2: a header `"Bearer " ++ t` with `t` free of leading and trailing
white space gives `t` and no error; a non-empty header without the marker gives
the empty string and the wrong-scheme error; an empty header gives the empty
string and the missing-credential error; and the two errors differ. -/
theorem C2_credential_extraction :
    (∀ t : GoString, (∀ c, t.head? = some c → isSpace c = false) →
      (∀ c, t.getLast? = some c → isSpace c = false) →
      GetTokenFromHeader ("Bearer ".toList ++ t) = (t, none)) ∧
    (∀ header : GoString, header ≠ [] → Contains header "Bearer".toList = false →
      GetTokenFromHeader header =
        ([], some (Error.New .BadRequest "Token type is required".toList))) ∧
    GetTokenFromHeader [] =
      ([], some (Error.SetCustomMessage
        (Error.New .BadRequest "Authorization token is required in header".toList)
        "Authorization token is required in header".toList)) ∧
    Error.SetCustomMessage
        (Error.New .BadRequest "Authorization token is required in header".toList)
        "Authorization token is required in header".toList ≠
      Error.New .BadRequest "Token type is required".toList := by
  refine ⟨?_, ?_, ?_, ?_⟩
  · intro t h1 h2
    exact GetTokenFromHeader_bearer t h1 h2
  · intro header hne hc
    simp only [GetTokenFromHeader, hne, if_false, hc, Bool.not_false, if_true]
  · rfl
  · decide

/-- Witness of C2 at the headers `"Bearer abc123"` and `"abc123"`. -/
theorem C2_credential_extraction_witness :
    GetTokenFromHeader ("Bearer ".toList ++ "abc123".toList) = ("abc123".toList, none) ∧
    GetTokenFromHeader "abc123".toList =
      ([], some (Error.New .BadRequest "Token type is required".toList)) :=
  ⟨C2_credential_extraction.1 "abc123".toList (by decide) (by decide),
   C2_credential_extraction.2.1 "abc123".toList (by decide) (by decide)⟩

/-- Counterexample to C3 as stated: on `"Basic Bearer abc"` the text before the
marker stays in the result, which is not the trimmed text after the marker. -/
theorem C3_counterexample :
    Contains "Basic Bearer abc".toList "Bearer".toList = true ∧
    GetTokenFromHeader "Basic Bearer abc".toList = ("Basic  abc".toList, none) ∧
    credentialAfterMarker "Basic Bearer abc".toList = "abc".toList ∧
    (GetTokenFromHeader "Basic Bearer abc".toList).1 ≠
      credentialAfterMarker "Basic Bearer abc".toList := by
  decide

/-- Claim C3, amended: for a header that carries the marker, with `i` the
position of its first occurrence (the marker stands at `i` and at no position
before), the result is the header without these six characters, trimmed; when
only white space stands before the marker, this is the trimmed text after the
marker. -/
theorem C3_first_marker_removed (header : GoString)
    (h : Contains header "Bearer".toList = true) :
    ∃ i, Index header "Bearer".toList = some i ∧
      HasPrefix (header.drop i) "Bearer".toList = true ∧
      (∀ j, j < i → HasPrefix (header.drop j) "Bearer".toList = false) ∧
      GetTokenFromHeader header = (TrimSpace (header.take i ++ header.drop (i + 6)), none) ∧
      ((header.take i).all isSpace = true →
        (GetTokenFromHeader header).1 = credentialAfterMarker header) := by
  unfold Contains at h
  obtain ⟨i, hi⟩ := Option.isSome_iff_exists.mp h
  have hne : header ≠ [] := by
    intro h0
    subst h0
    have h0 : Index [] "Bearer".toList = none := by decide
    rw [h0] at hi
    exact absurd hi (by simp)
  have hc : Contains header "Bearer".toList = true := by rw [Contains, hi]; rfl
  have hrep := Replace_first header "Bearer".toList i (by decide) hi
  have hlen : "Bearer".toList.length = 6 := rfl
  rw [hlen] at hrep
  have hget : GetTokenFromHeader header =
      (TrimSpace (header.take i ++ header.drop (i + 6)), none) := by
    simp only [GetTokenFromHeader, hne, if_false, hc, Bool.not_true, Bool.false_eq_true, hrep]
  refine ⟨i, hi, HasPrefix_drop_of_Index _ _ _ hi, HasPrefix_false_before_Index _ _ _ hi,
    hget, ?_⟩
  intro hsp
  rw [hget]
  show TrimSpace (header.take i ++ header.drop (i + 6)) = credentialAfterMarker header
  rw [credentialAfterMarker, hi, TrimSpace_append_of_all_space _ _ hsp]
  rfl

/-- Witness of the amended C3 at the header `"Basic Bearer abc"`. -/
theorem C3_first_marker_removed_witness :
    ∃ i, Index "Basic Bearer abc".toList "Bearer".toList = some i ∧
      HasPrefix ("Basic Bearer abc".toList.drop i) "Bearer".toList = true ∧
      (∀ j, j < i → HasPrefix ("Basic Bearer abc".toList.drop j) "Bearer".toList = false) ∧
      GetTokenFromHeader "Basic Bearer abc".toList =
        (TrimSpace ("Basic Bearer abc".toList.take i ++ "Basic Bearer abc".toList.drop (i + 6)),
          none) ∧
      (("Basic Bearer abc".toList.take i).all isSpace = true →
        (GetTokenFromHeader "Basic Bearer abc".toList).1 =
          credentialAfterMarker "Basic Bearer abc".toList) :=
  C3_first_marker_removed "Basic Bearer abc".toList (by decide)

/-- Counterexample to C4 as stated: with an access lifetime of 60 minutes and a
refresh lifetime of 1 hour, both strictly positive, a successful login returns
equal expiry times. -/
theorem C4_counterexample :
    (0 : Int) < 60 ∧ (0 : Int) < 1 ∧
    (ObtainJwtToken { sampleEnv with JwtAccessTokenExpiresAt := 60, JwtRefreshTokenExpiresAt := 1 }
      (sampleCollaborators true true) 0 0).response.field "access_expires_at".toList =
        some (.int64 3600) ∧
    (ObtainJwtToken { sampleEnv with JwtAccessTokenExpiresAt := 60, JwtRefreshTokenExpiresAt := 1 }
      (sampleCollaborators true true) 0 0).response.field "refresh_expires_at".toList =
        some (.int64 3600) ∧
    ¬ ((3600 : Int) < 3600) := by
  refine ⟨by decide, by decide, ?_, ?_, by decide⟩
  · rw [ObtainJwtToken_success _ _ sampleUser 0 0 rfl rfl rfl rfl]
    decide
  · rw [ObtainJwtToken_success _ _ sampleUser 0 0 rfl rfl rfl rfl]
    decide

/-- Claim C4, amended: on a successful login, when the access lifetime in
minutes is less than sixty times the refresh lifetime in hours, the refresh
lifetime fits a `time.Duration` and the clock does not go back between the two
readings, `access_expires_at` is the first reading plus the access lifetime in
minutes, `refresh_expires_at` the second reading plus the refresh lifetime in
hours, and the first is strictly less than the second. -/
theorem C4_access_expires_before_refresh (env : Env) (co : Collaborators) (user : User)
    (now1 now2 : Time)
    (hbind : co.ShouldBindJSON.2 = none)
    (hvalid : co.ValidateStruct co.ShouldBindJSON.1 = none)
    (hfound : co.CheckUserWithPhone co.ShouldBindJSON.1.Phone = (user, true, none))
    (hpw : co.CompareHashAndPlainPassword user.Password co.ShouldBindJSON.1.Password = true)
    (ha : 0 < env.JwtAccessTokenExpiresAt) (hr : 0 < env.JwtRefreshTokenExpiresAt)
    (hlt : env.JwtAccessTokenExpiresAt < 60 * env.JwtRefreshTokenExpiresAt)
    (hfit : isInt64 (Hour * env.JwtRefreshTokenExpiresAt))
    (hclock : now1 ≤ now2) :
    ∃ a r : Int,
      (ObtainJwtToken env co now1 now2).response.field "access_expires_at".toList =
        some (.int64 a) ∧
      (ObtainJwtToken env co now1 now2).response.field "refresh_expires_at".toList =
        some (.int64 r) ∧
      a = now1.Unix + 60 * env.JwtAccessTokenExpiresAt ∧
      r = now2.Unix + 3600 * env.JwtRefreshTokenExpiresAt ∧
      a < r := by
  rw [ObtainJwtToken_success env co user now1 now2 hbind hvalid hfound hpw]
  have hfitA : isInt64 (Minute * env.JwtAccessTokenExpiresAt) := by
    unfold isInt64 Hour Minute Second at *
    omega
  rw [wrapInt64_of_fits _ hfit, wrapInt64_of_fits _ hfitA]
  have e1 : (Time.Add now1 (Minute * env.JwtAccessTokenExpiresAt)).Unix =
      now1.Unix + 60 * env.JwtAccessTokenExpiresAt := by
    unfold Time.Add Time.Unix Minute Second
    omega
  have e2 : (Time.Add now2 (Hour * env.JwtRefreshTokenExpiresAt)).Unix =
      now2.Unix + 3600 * env.JwtRefreshTokenExpiresAt := by
    unfold Time.Add Time.Unix Hour Minute Second
    omega
  refine ⟨_, _, rfl, rfl, ?_, ?_, ?_⟩
  · exact e1
  · exact e2
  · rw [e1, e2]
    have hclock' : @LE.le Int _ now1 now2 := hclock
    have : now1.Unix ≤ now2.Unix := by
      unfold Time.Unix Second
      omega
    omega

/-- Witness of the amended C4 at `sampleEnv`, 15 minutes against 24 hours. -/
theorem C4_access_expires_before_refresh_witness :
    ∃ a r : Int,
      (ObtainJwtToken sampleEnv (sampleCollaborators true true) 1000 2000).response.field
        "access_expires_at".toList = some (.int64 a) ∧
      (ObtainJwtToken sampleEnv (sampleCollaborators true true) 1000 2000).response.field
        "refresh_expires_at".toList = some (.int64 r) ∧
      a = Time.Unix 1000 + 60 * sampleEnv.JwtAccessTokenExpiresAt ∧
      r = Time.Unix 2000 + 3600 * sampleEnv.JwtRefreshTokenExpiresAt ∧
      a < r :=
  C4_access_expires_before_refresh sampleEnv (sampleCollaborators true true) sampleUser 1000 2000
    rfl rfl rfl rfl (by decide) (by decide) (by decide) (by decide) (by decide)

/-- Counterexample to C5 as stated: a refresh token with `expires_at = 0`,
presented at second 5, after the instant its `expires_at` names, is refreshed:
the handler calls `GenerateToken` and answers with an `access_token`. -/
theorem C5_counterexample :
    (0 : Int) < Time.Unix 5000000000 ∧
    (RefreshJwtToken sampleEnv ("Bearer ".toList ++
        (GenerateToken { ExpiresAt := 0, Id := "7".toList } sampleEnv.JwtRefreshSecret).1)
      5000000000 5000000000).minted =
        [({ ExpiresAt := 905, Id := "7".toList }, sampleEnv.JwtAccessSecret)] ∧
    (RefreshJwtToken sampleEnv ("Bearer ".toList ++
        (GenerateToken { ExpiresAt := 0, Id := "7".toList } sampleEnv.JwtRefreshSecret).1)
      5000000000 5000000000).response.keys =
        ["access_token".toList, "expires_at".toList] := by
  have hg := GetTokenFromHeader_token { ExpiresAt := 0, Id := "7".toList }
    sampleEnv.JwtRefreshSecret
  have hp := ParseToken_GenerateToken_valid { ExpiresAt := 0, Id := "7".toList }
    sampleEnv.JwtRefreshSecret sampleEnv.JwtRefreshSecret 5000000000 (by decide) rfl
    (Valid_none _ _ (Or.inl rfl) (Or.inl rfl) (Or.inl rfl))
  rw [RefreshJwtToken_success sampleEnv _ 5000000000 5000000000 _
    { ExpiresAt := 0, Id := "7".toList } (by rw [hg]) (by rw [hg]; exact hp)
    (VerifyToken_valid _ _ rfl rfl)]
  exact ⟨by decide, by decide, rfl⟩

/-- Claim C5, amended: when extraction, decoding or verification returns an
error, of any kind, `RefreshJwtToken` hands an `Unauthorized` error that wraps
it to the error responder, makes no call of `GenerateToken`, and its response
has no `access_token`; so it does for a refresh token, signed with the refresh
secret, whose `expires_at` is not zero and not after the clock reading. -/
theorem C5_refresh_errors_unauthorized (env : Env) (header : GoString) (now1 now2 : Time) :
    (((GetTokenFromHeader header).2 ≠ none ∨
      (∃ e, ParseToken (GetTokenFromHeader header).1 env.JwtRefreshSecret now1 = .error e) ∨
      (∃ tok e, ParseToken (GetTokenFromHeader header).1 env.JwtRefreshSecret now1 = .ok tok ∧
        VerifyToken tok = .error e)) →
      ∃ e, (RefreshJwtToken env header now1 now2).response =
          .HandleError (.Wrap .Unauthorized e "Something went wrong".toList) ∧
        (Error.Wrap .Unauthorized e "Something went wrong".toList).type = some .Unauthorized ∧
        (RefreshJwtToken env header now1 now2).minted = [] ∧
        (RefreshJwtToken env header now1 now2).response.field "access_token".toList = none) ∧
    (∀ C : JWTClaims, C.wellTyped → C.ExpiresAt ≠ 0 → C.ExpiresAt ≤ now1.Unix →
      ∃ e, (RefreshJwtToken env
            ("Bearer ".toList ++ (GenerateToken C env.JwtRefreshSecret).1) now1 now2).response =
          .HandleError (.Wrap .Unauthorized e "Something went wrong".toList) ∧
        (RefreshJwtToken env
            ("Bearer ".toList ++ (GenerateToken C env.JwtRefreshSecret).1) now1 now2).minted = [] ∧
        (RefreshJwtToken env
            ("Bearer ".toList ++ (GenerateToken C env.JwtRefreshSecret).1)
            now1 now2).response.field "access_token".toList = none) := by
  constructor
  · intro h
    cases hx : (GetTokenFromHeader header).2 with
    | some e =>
      rw [RefreshJwtToken_extract_error env header now1 now2 e hx]
      exact ⟨e, rfl, rfl, rfl, rfl⟩
    | none =>
      rcases h with h | ⟨e, he⟩ | ⟨tok, e, htok, he⟩
      · exact absurd hx h
      · rw [RefreshJwtToken_parse_error env header now1 now2 e hx he]
        exact ⟨e, rfl, rfl, rfl, rfl⟩
      · rw [RefreshJwtToken_verify_error env header now1 now2 tok e hx htok he]
        exact ⟨e, rfl, rfl, rfl, rfl⟩
  · intro C hC h0 hle
    obtain ⟨e, he⟩ := ParseToken_GenerateToken_error C env.JwtRefreshSecret now1 hC h0
      (unixTime_le _ _ hC.1 hle)
    have hg := GetTokenFromHeader_token C env.JwtRefreshSecret
    rw [RefreshJwtToken_parse_error env _ now1 now2 e (by rw [hg]) (by rw [hg]; exact he)]
    exact ⟨e, rfl, rfl, rfl⟩

set_option maxRecDepth 1000000 in
/-- Witness of the amended C5 at `sampleRefreshToken`, which expires at second 2000,
presented at second 3000. -/
theorem C5_refresh_errors_unauthorized_witness :
    ∃ e, (RefreshJwtToken sampleEnv ("Bearer ".toList ++ sampleRefreshToken)
          3000000000000 3000000000000).response =
        .HandleError (.Wrap .Unauthorized e "Something went wrong".toList) ∧
      (Error.Wrap .Unauthorized e "Something went wrong".toList).type = some .Unauthorized ∧
      (RefreshJwtToken sampleEnv ("Bearer ".toList ++ sampleRefreshToken)
          3000000000000 3000000000000).minted = [] ∧
      (RefreshJwtToken sampleEnv ("Bearer ".toList ++ sampleRefreshToken)
          3000000000000 3000000000000).response.field "access_token".toList = none :=
  (C5_refresh_errors_unauthorized sampleEnv ("Bearer ".toList ++ sampleRefreshToken)
    3000000000000 3000000000000).1
    (Or.inr (Or.inl ⟨.jwt { Inner := some "token is expired by 16m40s".toList,
                            Errors := ValidationErrorExpired, text := [] }, by decide!⟩))

set_option maxRecDepth 1000000 in
/-- Counterexample to C6 as stated: a token that is not well-formed (one
segment) and a well-formed token whose signature does not verify get the same
error from `ParseToken`, though the library tells them apart. -/
theorem C6_counterexample :
    ParseWithClaims "abc".toList (utf8Encode "secret".toList) 0 =
      .error { text := "token contains an invalid number of segments".toList,
               Errors := ValidationErrorMalformed } ∧
    ParseWithClaims "eyJhbGciOiJIUzI1NiIsInR5cCI6IkpXVCJ9.e30.AAAA".toList
        (utf8Encode "secret".toList) 0 =
      .error { Inner := some "signature is invalid".toList,
               Errors := ValidationErrorSignatureInvalid } ∧
    ParseToken "abc".toList "secret".toList 0 =
      .error (.New .BadRequest "Invalid ID token".toList) ∧
    ParseToken "eyJhbGciOiJIUzI1NiIsInR5cCI6IkpXVCJ9.e30.AAAA".toList "secret".toList 0 =
      .error (.New .BadRequest "Invalid ID token".toList) := by
  decide!

/-- Claim C6, amended: `ParseToken` tells two kinds of failure apart, not
three. A token that is not well-formed and a token whose signature does not
verify both give the `BadRequest` error `Invalid ID token`; a token whose
signature verifies and whose `expires_at` is set and not after the clock
reading, its other time claims in order, gives the expiry error of the library;
and the expiry error differs from the error of an invalid token. -/
theorem C6_two_error_kinds (tokenString secret : GoString) (now : Time) :
    (∀ e, ParseUnverified tokenString = .error e →
      ParseToken tokenString secret now =
        .error (.New .BadRequest "Invalid ID token".toList)) ∧
    (∀ tok p0 p1 p2 msg, ParseUnverified tokenString = .ok (tok, p0, p1, p2) →
      tok.Method.Verify (p0 ++ '.' :: p1) p2 (utf8Encode secret) = some msg →
      ParseToken tokenString secret now =
        .error (.New .BadRequest "Invalid ID token".toList)) ∧
    (∀ tok p0 p1 p2 c, ParseUnverified tokenString = .ok (tok, p0, p1, p2) →
      tok.Method.Verify (p0 ++ '.' :: p1) p2 (utf8Encode secret) = none →
      tok.Claims = .jwtClaims c → c.ExpiresAt ≠ 0 → c.ExpiresAt ≤ now.Unix →
      (c.IssuedAt = 0 ∨ c.IssuedAt ≤ now.Unix) → (c.NotBefore = 0 ∨ c.NotBefore ≤ now.Unix) →
      ParseToken tokenString secret now = .error (.jwt
        { Inner := some ("token is expired by ".toList ++
            durationString (subUnix now.Unix c.ExpiresAt))
          Errors := ValidationErrorExpired
          text := [] })) ∧
    (∀ v : ValidationError, Error.jwt v ≠ Error.New .BadRequest "Invalid ID token".toList) := by
  refine ⟨?_, ?_, ?_, ?_⟩
  · intro e h
    exact ParseToken_of_unverified_error tokenString secret now e h
  · intro tok p0 p1 p2 msg h hv
    exact ParseToken_of_verify_error tokenString secret now tok p0 p1 p2 msg h hv
  · intro tok p0 p1 p2 c h hv hc he0 he hi hn
    have hw := ParseUnverified_wellTyped tokenString tok p0 p1 p2 c h hc
    exact ParseToken_of_expired tokenString secret now tok p0 p1 p2 c h hv hc he0
      (unixTime_le _ _ hw.1 he) (hi.imp id (unixTime_le _ _ hw.2.1))
      (hn.imp id (unixTime_le _ _ hw.2.2))
  · intro v h
    cases h

set_option maxRecDepth 1000000 in
/-- Witness of the amended C6 at `sampleRefreshToken`, presented at second
3000 with its own secret: the expiry error. -/
theorem C6_two_error_kinds_witness :
    ParseToken sampleRefreshToken sampleEnv.JwtRefreshSecret 3000000000000 = .error (.jwt
      { Inner := some ("token is expired by ".toList ++
          durationString (subUnix (Time.Unix 3000000000000) 2000))
        Errors := ValidationErrorExpired
        text := [] }) :=
  (C6_two_error_kinds sampleRefreshToken sampleEnv.JwtRefreshSecret 3000000000000).2.2.1
    { Raw := sampleRefreshToken, Method := .HS256,
      Header := [("alg".toList, Json.string "HS256".toList),
                 ("typ".toList, Json.string "JWT".toList)],
      Claims := .jwtClaims { ExpiresAt := 2000, Id := "7".toList },
      Signature := [], Valid := false }
    "eyJhbGciOiJIUzI1NiIsInR5cCI6IkpXVCJ9".toList
    "eyJleHAiOjIwMDAsImp0aSI6IjcifQ".toList
    "n-Ue5pIrGkDwRBjluGLFCFnSSp6WMtjCJQ51Nbn4T7w".toList
    { ExpiresAt := 2000, Id := "7".toList }
    (by decide!) (by decide!) rfl (by decide) (by decide) (Or.inl rfl) (Or.inl rfl)

/-- Counterexample to C7 as stated: the secrets `k` and `k` followed by a zero
byte differ, and a token made with the first is accepted with the second,
because HMAC fills a short key with zero bytes. -/
theorem C7_counterexample :
    "k".toList ≠ "k".toList ++ [Char.ofNat 0] ∧
    ∃ tok, ParseToken (GenerateToken { ExpiresAt := 2000, Id := "7".toList } "k".toList).1
      ("k".toList ++ [Char.ofNat 0]) 1000000000000 = .ok tok := by
  refine ⟨by decide, _, ParseToken_GenerateToken_valid _ _ _ _ (by decide) ?_ ?_⟩
  · unfold hmac
    rw [hmac_zero_padded_key]
  · exact Valid_none _ _ (Or.inr (by decide)) (Or.inl rfl) (Or.inl rfl)

/-- Claim C7, amended: a token made by `GenerateToken` with one secret and read
by `ParseToken` with another secret is rejected with the error of an invalid
token, never accepted and never with the expiry error, whenever the two secrets
give different HMAC-SHA256 values on the signing string of the token. -/
theorem C7_secret_separation (C : JWTClaims) (accessSecret refreshSecret : GoString)
    (now : Time) (hC : C.wellTyped)
    (htag : hmac sha256 (utf8Encode accessSecret) (utf8Encode (SigningString C)) ≠
      hmac sha256 (utf8Encode refreshSecret) (utf8Encode (SigningString C))) :
    ParseToken (GenerateToken C accessSecret).1 refreshSecret now =
      .error (.New .BadRequest "Invalid ID token".toList) :=
  ParseToken_GenerateToken_invalid C accessSecret refreshSecret now hC htag

set_option maxRecDepth 1000000 in
/-- Witness of the amended C7 at the two secrets of `sampleEnv`. -/
theorem C7_secret_separation_witness :
    ParseToken (GenerateToken { ExpiresAt := 2000, Id := "7".toList }
      sampleEnv.JwtAccessSecret).1 sampleEnv.JwtRefreshSecret 1000000000000 =
      .error (.New .BadRequest "Invalid ID token".toList) :=
  C7_secret_separation { ExpiresAt := 2000, Id := "7".toList } sampleEnv.JwtAccessSecret
    sampleEnv.JwtRefreshSecret 1000000000000 (by decide) (by decide!)

/-- Counterexample to C8 as stated: with `expires_at` the largest `int64`, read
at second 1000, long before it, the token `GenerateToken` makes is rejected by
`ParseToken` with the same secret, as expired: `time.Unix` wraps the claim
around to an instant in the past. -/
theorem C8_counterexample :
    isInt64 9223372036854775807 ∧
    Time.Unix 1000000000000 < 9223372036854775807 ∧
    ParseToken (GenerateToken { ExpiresAt := 9223372036854775807, Id := "7".toList }
        "secret".toList).1 "secret".toList 1000000000000 =
      .error (.jwt
        { Inner := some "token is expired by 2562047h47m16.854775807s".toList
          Errors := ValidationErrorExpired
          text := [] }) := by
  refine ⟨by decide, by decide, ?_⟩
  rw [ParseToken_GenerateToken_expired _ _ _ _ (by decide) rfl (by decide) (by decide)
    (Or.inl rfl) (Or.inl rfl)]
  decide

/-- Claim C8, amended: for a claim set of a subject id, a string of valid
UTF-8, and an `expires_at` below `2 ^ 63 - unixToInternal`, where `time.Unix`
does not wrap around, and any secret, at a clock reading before `expires_at`,
`GenerateToken` returns a token and no error, `ParseToken` with the same
secret accepts the token, and `VerifyToken` returns the claim set. -/
theorem C8_round_trip (id : GoString) (expiresAt : Int) (secret : GoString) (now : Time)
    (hexp : isInt64 expiresAt) (hfit : expiresAt < 2 ^ 63 - unixToInternal)
    (hnow : now.Unix < expiresAt) :
    ∃ T tok, GenerateToken { ExpiresAt := expiresAt, Id := id } secret = (T, none) ∧
      ParseToken T secret now = .ok tok ∧
      VerifyToken tok = .ok { ExpiresAt := expiresAt, Id := id } := by
  have hw : (JWTClaims.mk { ExpiresAt := expiresAt, Id := id }).wellTyped :=
    ⟨hexp, isInt64_zero, isInt64_zero⟩
  refine ⟨_, _, GenerateToken_eq _ _, ParseToken_GenerateToken_valid _ secret secret now hw rfl
    (Valid_none _ _ (Or.inr (unixTime_lt _ _ hexp hfit hnow)) (Or.inl rfl) (Or.inl rfl)), ?_⟩
  exact VerifyToken_valid _ _ rfl rfl

/-- Witness of the amended C8 at subject `7`, expiry at second 2000, read at
second 1000. -/
theorem C8_round_trip_witness :
    ∃ T tok, GenerateToken { ExpiresAt := 2000, Id := "7".toList } "secret".toList = (T, none) ∧
      ParseToken T "secret".toList 1000000000000 = .ok tok ∧
      VerifyToken tok = .ok { ExpiresAt := 2000, Id := "7".toList } :=
  C8_round_trip "7".toList 2000 "secret".toList 1000000000000 (by decide) (by decide)
    (by decide)

/-- Counterexample to C9 as stated: a token with `expires_at = 0` is accepted
at second 5, a time not before `0`. -/
theorem C9_counterexample :
    ¬ (Time.Unix 5000000000 < 0) ∧
    ∃ tok, ParseToken (GenerateToken { ExpiresAt := 0, Id := "7".toList } "secret".toList).1
      "secret".toList 5000000000 = .ok tok := by
  refine ⟨by decide, _, ParseToken_GenerateToken_valid _ _ _ _ (by decide) rfl ?_⟩
  exact Valid_none _ _ (Or.inl rfl) (Or.inl rfl) (Or.inl rfl)

/-- Claim C9, amended: a token made with `expires_at = t`, `t` not zero and
below `2 ^ 63 - unixToInternal`, is accepted by `ParseToken` with the same
secret at every clock reading before `t`, and rejected with the expiry error at
every clock reading at or after `t`; a token made with `expires_at = 0` carries
no expiry and is accepted at every clock reading; and from
`2 ^ 63 - unixToInternal` on, where `time.Unix` wraps `t` around, the token is
rejected with the expiry error at every clock reading. -/
theorem C9_expiry_monotone (id secret : GoString) (t : Int) (now : Time) (ht : isInt64 t) :
    (t ≠ 0 → t < 2 ^ 63 - unixToInternal → now.Unix < t →
      ∃ tok, ParseToken (GenerateToken { ExpiresAt := t, Id := id } secret).1 secret now =
          .ok tok ∧ tok.Valid = true ∧
        tok.Claims = .jwtClaims { ExpiresAt := t, Id := id }) ∧
    (t ≠ 0 → t ≤ now.Unix →
      ParseToken (GenerateToken { ExpiresAt := t, Id := id } secret).1 secret now =
        .error (.jwt
          { Inner := some ("token is expired by ".toList ++
              durationString (subUnix now.Unix t))
            Errors := ValidationErrorExpired
            text := [] })) ∧
    (t = 0 →
      ∃ tok, ParseToken (GenerateToken { ExpiresAt := t, Id := id } secret).1 secret now =
          .ok tok ∧ tok.Valid = true ∧
        tok.Claims = .jwtClaims { ExpiresAt := t, Id := id }) ∧
    (2 ^ 63 - unixToInternal ≤ t → isInt64 now.Unix →
      ParseToken (GenerateToken { ExpiresAt := t, Id := id } secret).1 secret now =
        .error (.jwt
          { Inner := some ("token is expired by ".toList ++
              durationString (subUnix now.Unix t))
            Errors := ValidationErrorExpired
            text := [] })) := by
  have hw : (JWTClaims.mk { ExpiresAt := t, Id := id }).wellTyped :=
    ⟨ht, isInt64_zero, isInt64_zero⟩
  refine ⟨?_, ?_, ?_, ?_⟩
  · intro _ hfit hlt
    exact ⟨_, ParseToken_GenerateToken_valid _ secret secret now hw rfl
      (Valid_none _ _ (Or.inr (unixTime_lt _ _ ht hfit hlt)) (Or.inl rfl) (Or.inl rfl)),
      rfl, rfl⟩
  · intro h0 hle
    exact ParseToken_GenerateToken_expired _ secret secret now hw rfl h0
      (unixTime_le _ _ ht hle) (Or.inl rfl) (Or.inl rfl)
  · intro h0
    exact ⟨_, ParseToken_GenerateToken_valid _ secret secret now hw rfl
      (Valid_none _ _ (Or.inl h0) (Or.inl rfl) (Or.inl rfl)), rfl, rfl⟩
  · intro hbig hnow
    have h0 : t ≠ 0 := by
      unfold unixToInternal at hbig
      omega
    exact ParseToken_GenerateToken_expired _ secret secret now hw rfl h0
      (unixTime_wrapped _ _ ht hbig hnow.1) (Or.inl rfl) (Or.inl rfl)

/-- Witness of the amended C9: at `t = 2000`, accepted at second 1999 and
rejected as expired at second 2000; at `t` the largest `int64`, rejected as
expired at second 1000. -/
theorem C9_expiry_monotone_witness :
    (∃ tok, ParseToken (GenerateToken { ExpiresAt := 2000, Id := "7".toList }
        "secret".toList).1 "secret".toList 1999999999999 = .ok tok ∧ tok.Valid = true ∧
      tok.Claims = .jwtClaims { ExpiresAt := 2000, Id := "7".toList }) ∧
    ParseToken (GenerateToken { ExpiresAt := 2000, Id := "7".toList }
        "secret".toList).1 "secret".toList 2000000000000 =
      .error (.jwt
        { Inner := some ("token is expired by ".toList ++
            durationString (subUnix (Time.Unix 2000000000000) 2000))
          Errors := ValidationErrorExpired
          text := [] }) ∧
    ParseToken (GenerateToken { ExpiresAt := 9223372036854775807, Id := "7".toList }
        "secret".toList).1 "secret".toList 1000000000000 =
      .error (.jwt
        { Inner := some ("token is expired by ".toList ++
            durationString (subUnix (Time.Unix 1000000000000) 9223372036854775807))
          Errors := ValidationErrorExpired
          text := [] }) :=
  ⟨(C9_expiry_monotone "7".toList "secret".toList 2000 1999999999999 (by decide)).1
      (by decide) (by decide) (by decide),
   (C9_expiry_monotone "7".toList "secret".toList 2000 2000000000000 (by decide)).2.1
      (by decide) (by decide),
   (C9_expiry_monotone "7".toList "secret".toList 9223372036854775807 1000000000000
      (by decide)).2.2.2 (by decide) (by decide)⟩

/-- Counterexample to C10 as stated: with an access lifetime of 153722868
minutes the product `time.Minute * 153722868` does not fit a `time.Duration`
and wraps around; a refresh at second 1000 mints a token and answers with the
`expires_at` -9223370994, which is not second 1000 plus the lifetime. -/
theorem C10_counterexample :
    (0 : Int) < 153722868 ∧
    (RefreshJwtToken { sampleEnv with JwtAccessTokenExpiresAt := 153722868 }
        ("Bearer ".toList ++ sampleRefreshToken) 1000000000000 1000000000000).minted =
      [({ ExpiresAt := -9223370994, Id := "7".toList }, sampleEnv.JwtAccessSecret)] ∧
    (RefreshJwtToken { sampleEnv with JwtAccessTokenExpiresAt := 153722868 }
        ("Bearer ".toList ++ sampleRefreshToken) 1000000000000
        1000000000000).response.field "expires_at".toList = some (.int64 (-9223370994)) ∧
    (-9223370994 : Int) ≠ Time.Unix 1000000000000 + 60 * 153722868 := by
  have hg := GetTokenFromHeader_token { ExpiresAt := 2000, Id := "7".toList }
    sampleEnv.JwtRefreshSecret
  have hp := ParseToken_GenerateToken_valid { ExpiresAt := 2000, Id := "7".toList }
    sampleEnv.JwtRefreshSecret sampleEnv.JwtRefreshSecret 1000000000000 (by decide) rfl
    (Valid_none _ _ (Or.inr (by decide)) (Or.inl rfl) (Or.inl rfl))
  rw [RefreshJwtToken_success { sampleEnv with JwtAccessTokenExpiresAt := 153722868 }
    ("Bearer ".toList ++ sampleRefreshToken) 1000000000000 1000000000000 _
    { ExpiresAt := 2000, Id := "7".toList } (by rw [sampleRefreshToken, hg])
    (by rw [sampleRefreshToken, hg]; exact hp) (VerifyToken_valid _ _ rfl rfl)]
  exact ⟨by decide, by decide, by decide, by decide⟩

/-- Claim C10, amended: when extraction, decoding and verification succeed with
claims `K`, the handler calls `GenerateToken` once, with the access secret and
the claims made of the subject id of `K` and the clock reading plus the access
lifetime, a `time.Duration` that wraps around when it does not fit; the
response holds that token under `access_token`, the expiry of these claims
under `expires_at`, and nothing else, so no refresh token; and when the
lifetime fits a `time.Duration`, the expiry is the clock reading in seconds
plus sixty times the lifetime in minutes. -/
theorem C10_refresh_issues_access_token (env : Env) (header : GoString) (now1 now2 : Time)
    (tok : Token) (K : JWTClaims) (h1 : (GetTokenFromHeader header).2 = none)
    (h2 : ParseToken (GetTokenFromHeader header).1 env.JwtRefreshSecret now1 = .ok tok)
    (h3 : VerifyToken tok = .ok K) :
    ∃ claims : JWTClaims,
      claims = { ExpiresAt := (now2.Add (wrapInt64 (Minute * env.JwtAccessTokenExpiresAt))).Unix
                 Id := K.Id } ∧
      (RefreshJwtToken env header now1 now2).minted = [(claims, env.JwtAccessSecret)] ∧
      (RefreshJwtToken env header now1 now2).response =
        .SuccessJSON StatusOK
          [ ("access_token".toList, .string (GenerateToken claims env.JwtAccessSecret).1),
            ("expires_at".toList, .int64 claims.ExpiresAt) ] ∧
      (GenerateToken claims env.JwtAccessSecret).2 = none ∧
      (RefreshJwtToken env header now1 now2).response.keys =
        ["access_token".toList, "expires_at".toList] ∧
      (RefreshJwtToken env header now1 now2).response.field "refresh_token".toList = none ∧
      (isInt64 (Minute * env.JwtAccessTokenExpiresAt) →
        claims.ExpiresAt = now2.Unix + 60 * env.JwtAccessTokenExpiresAt) := by
  refine ⟨_, rfl, ?_⟩
  rw [RefreshJwtToken_success env header now1 now2 tok K h1 h2 h3]
  refine ⟨rfl, rfl, ?_, rfl, rfl, ?_⟩
  · rw [GenerateToken_eq]
  · intro hfit
    rw [wrapInt64_of_fits _ hfit]
    show (Time.Add now2 (Minute * env.JwtAccessTokenExpiresAt)).Unix = _
    unfold Time.Add Time.Unix Minute Second
    omega

set_option maxRecDepth 1000000 in
/-- Witness of the amended C10 at `sampleRefreshToken`, presented at second 1000. -/
theorem C10_refresh_issues_access_token_witness :
    ∃ claims : JWTClaims,
      claims = { ExpiresAt := (Time.Add 1000000000500
                    (wrapInt64 (Minute * sampleEnv.JwtAccessTokenExpiresAt))).Unix
                 Id := "7".toList } ∧
      (RefreshJwtToken sampleEnv ("Bearer ".toList ++ sampleRefreshToken)
        1000000000000 1000000000500).minted = [(claims, sampleEnv.JwtAccessSecret)] ∧
      (RefreshJwtToken sampleEnv ("Bearer ".toList ++ sampleRefreshToken)
        1000000000000 1000000000500).response =
        .SuccessJSON StatusOK
          [ ("access_token".toList, .string (GenerateToken claims sampleEnv.JwtAccessSecret).1),
            ("expires_at".toList, .int64 claims.ExpiresAt) ] ∧
      (GenerateToken claims sampleEnv.JwtAccessSecret).2 = none ∧
      (RefreshJwtToken sampleEnv ("Bearer ".toList ++ sampleRefreshToken)
        1000000000000 1000000000500).response.keys =
        ["access_token".toList, "expires_at".toList] ∧
      (RefreshJwtToken sampleEnv ("Bearer ".toList ++ sampleRefreshToken)
        1000000000000 1000000000500).response.field "refresh_token".toList = none ∧
      (isInt64 (Minute * sampleEnv.JwtAccessTokenExpiresAt) →
        claims.ExpiresAt = Time.Unix 1000000000500 + 60 * sampleEnv.JwtAccessTokenExpiresAt) :=
  C10_refresh_issues_access_token sampleEnv ("Bearer ".toList ++ sampleRefreshToken)
    1000000000000 1000000000500
    { Raw := sampleRefreshToken, Method := .HS256,
      Header := [("alg".toList, Json.string "HS256".toList),
                 ("typ".toList, Json.string "JWT".toList)],
      Claims := .jwtClaims { ExpiresAt := 2000, Id := "7".toList },
      Signature := "n-Ue5pIrGkDwRBjluGLFCFnSSp6WMtjCJQ51Nbn4T7w".toList, Valid := true }
    { ExpiresAt := 2000, Id := "7".toList }
    (by decide!) (by decide!) (by decide)

end LetsChat
